import Mathlib

/-!
Verification development for the retained-mode scene-graph engine
(`base/src/lib.rs`, `base/src/object_tree.rs`, `base/src/math.rs`).

The Rust code is shallowly embedded: `f32` values are modelled as exact
rationals (`Rat`, with `f32::round` modelled as round-half-away-from-zero),
`u64` identifiers as `Nat`, fallible operations (Rust panics) as
`Except Err`, and the unchecked recursion of the tree traversals as
fuel-indexed recursion (`Err.outOfFuel` marks fuel exhaustion, which is
distinct from `Err.fatal`, the model of a Rust panic).

Polymorphic `Object` trait implementations are modelled by the type `Obj`:
the data every object exposes to the engine (children ids,
pointer-event opt-in, cursor icon) plus the observable behaviour of each
callback, expressed through the pass-context operations the engine hands
to objects (`do_layout`, `place_child`, `request_layout`,
`request_compose`, `update_child`, renderer draws, `set_child_scroll`).
-/

namespace SceneGraph

/-- An exact fraction modelling one `f32` value (numerator and
denominator; by convention the denominator is positive — every value the
model constructs keeps it so).  The source's float arithmetic is
modelled exactly; comparison and equality compare the represented
values by cross-multiplication, the way `f32` comparison ignores
representation. -/
structure Fx where
  num : Int
  den : Int
deriving Repr, DecidableEq

/-- Embed an integer. -/
def Fx.ofInt (n : Int) : Fx := ⟨n, 1⟩

instance (n : Nat) : OfNat Fx n := ⟨⟨(n : Int), 1⟩⟩

def Fx.add (a b : Fx) : Fx := ⟨a.num * b.den + b.num * a.den, a.den * b.den⟩

def Fx.neg (a : Fx) : Fx := ⟨-a.num, a.den⟩

def Fx.sub (a b : Fx) : Fx := a.add b.neg

def Fx.mul (a b : Fx) : Fx := ⟨a.num * b.num, a.den * b.den⟩

/-- Value comparison `a <= b` (denominators positive). -/
def Fx.ble (a b : Fx) : Bool := a.num * b.den ≤ b.num * a.den

/-- Value comparison `a < b`. -/
def Fx.blt (a b : Fx) : Bool := a.num * b.den < b.num * a.den

/-- Value equality, the model of `f32` `==`. -/
def Fx.beq (a b : Fx) : Bool := a.num * b.den == b.num * a.den

/-- `f32::min` (value minimum). -/
def Fx.fmin (a b : Fx) : Fx := if a.ble b then a else b

/-- `f32::max` (value maximum). -/
def Fx.fmax (a b : Fx) : Fx := if b.ble a then a else b

/-- The floor of the represented value (denominator positive). -/
def Fx.floor (a : Fx) : Int := a.num.fdiv a.den

/-- Round half away from zero, the rounding mode of Rust's `f32::round`,
used by `Size::round` and `Point::round` in `math.rs`. -/
def fround (q : Fx) : Fx :=
  if (0 : Fx).ble q then .ofInt ((q.add ⟨1, 2⟩).floor)
  else .ofInt (-((q.neg.add ⟨1, 2⟩).floor))

/-- Model of `math.rs` `Point` (f32 coordinates). -/
structure Point where
  x : Fx
  y : Fx
deriving Repr, DecidableEq

/-- Model of `math.rs` `Size`. -/
structure Size where
  width : Fx
  height : Fx
deriving Repr, DecidableEq

/-- Model of `math.rs` `Area`. -/
structure Area where
  position : Point
  size : Size
deriving Repr, DecidableEq

def Point.zero : Point := ⟨0, 0⟩

def Size.zero : Size := ⟨0, 0⟩

/-- `Point::round`. -/
def Point.round (p : Point) : Point := ⟨fround p.x, fround p.y⟩

/-- `Size::round`. -/
def Size.round (s : Size) : Size := ⟨fround s.width, fround s.height⟩

/-- `Point` value equality (`PartialEq` on two f32 fields). -/
def Point.beq (a b : Point) : Bool := a.x.beq b.x && a.y.beq b.y

/-- `Size` value equality. -/
def Size.beq (a b : Size) : Bool := a.width.beq b.width && a.height.beq b.height

/-- `Option<Point>` equality (`PartialEq`, as used on the stored pointer
position). -/
def optPointBeq : Option Point → Option Point → Bool
  | none, none => true
  | some a, some b => a.beq b
  | _, _ => false

/-- `Point::add` (`impl Add for Point`). -/
def Point.add (a b : Point) : Point := ⟨a.x.add b.x, a.y.add b.y⟩

/-- `Point::add_size`. -/
def Point.addSize (p : Point) (s : Size) : Point := ⟨p.x.add s.width, p.y.add s.height⟩

/-- `Point::size_up_to`. -/
def Point.sizeUpTo (p max : Point) : Size := ⟨max.x.sub p.x, max.y.sub p.y⟩

def Area.zero : Area := ⟨Point.zero, Size.zero⟩

/-- `Area::from_size`. -/
def Area.fromSize (s : Size) : Area := ⟨Point.zero, s⟩

/-- `Area::max_point`. -/
def Area.maxPoint (a : Area) : Point := a.position.addSize a.size

/-- `Area::from_min_max`. -/
def Area.fromMinMax (min max : Point) : Area := ⟨min, min.sizeUpTo max⟩

/-- `Area::union`. -/
def Area.union (a b : Area) : Area :=
  let max := a.maxPoint
  let otherMax := b.maxPoint
  Area.fromMinMax
    ⟨a.position.x.fmin b.position.x, a.position.y.fmin b.position.y⟩
    ⟨max.x.fmax otherMax.x, max.y.fmax otherMax.y⟩

/-- `Area::contains`: min-inclusive, max-exclusive point membership. -/
def Area.contains (a : Area) (p : Point) : Bool :=
  let max := a.maxPoint
  a.position.x.ble p.x && a.position.y.ble p.y && p.x.blt max.x && p.y.blt max.y

/-- Model of `math.rs` `Affine` (six f32 coefficients). -/
structure Affine where
  c0 : Fx
  c1 : Fx
  c2 : Fx
  c3 : Fx
  c4 : Fx
  c5 : Fx
deriving Repr, DecidableEq

/-- `Affine::IDENTITY` (`Affine::scale(1.0)`). -/
def Affine.identity : Affine := ⟨1, 0, 0, 1, 0, 0⟩

/-- `Affine::with_translation`. -/
def Affine.withTranslation (a : Affine) (t : Point) : Affine :=
  { a with c4 := a.c4.add t.x, c5 := a.c5.add t.y }

/-- `Affine::tranform_point` (sic, source spelling). -/
def Affine.tranformPoint (a : Affine) (p : Point) : Point :=
  ⟨((a.c0.mul p.x).add (a.c2.mul p.y)).add a.c4,
   ((a.c1.mul p.x).add (a.c3.mul p.y)).add a.c5⟩

/-- `Affine::transform_area`. -/
def Affine.transformArea (a : Affine) (ar : Area) : Area :=
  let mn := ar.position
  let mx := ar.maxPoint
  let p00 := a.tranformPoint ⟨mn.x, mn.y⟩
  let p01 := a.tranformPoint ⟨mn.x, mx.y⟩
  let p10 := a.tranformPoint ⟨mx.x, mn.y⟩
  let p11 := a.tranformPoint ⟨mx.x, mx.y⟩
  (Area.fromMinMax p00 p01).union (Area.fromMinMax p10 p11)

/-- `impl Mul for Affine`. -/
def Affine.mul (a b : Affine) : Affine :=
  ⟨(a.c0.mul b.c0).add (a.c2.mul b.c1),
   (a.c1.mul b.c0).add (a.c3.mul b.c1),
   (a.c0.mul b.c2).add (a.c2.mul b.c3),
   (a.c1.mul b.c2).add (a.c3.mul b.c3),
   ((a.c0.mul b.c4).add (a.c2.mul b.c5)).add a.c4,
   ((a.c1.mul b.c4).add (a.c3.mul b.c5)).add a.c5⟩

/-- Model of `CursorIcon` from `lib.rs`. -/
inductive CursorIcon where
  | default
  | pointingHand
  | iBeam
deriving Repr, DecidableEq

/-- Modelled from the spec: the color value type `Rgba` lives in the
missing `color.rs`; only its identity matters to the engine. -/
structure Rgba where
  r : Nat
  g : Nat
  b : Nat
  a : Nat
deriving Repr, DecidableEq

/-- Modelled from the spec: pointer button vocabulary
`{primary, secondary, auxiliary, back, forward}` (definition lives in a
source file missing from `src/`; usages appear in `object_tree.rs` and
`main.rs`). -/
inductive PointerButton where
  | primary
  | secondary
  | auxiliary
  | back
  | forward
deriving Repr, DecidableEq

/-- Modelled from the spec: pointer event vocabulary
`Move{optional position}`, `Down{button}`, `Up{button}` (the enum itself
lives in a source file missing from `src/`; `object_tree.rs` matches on
exactly these three constructors, with `Move`'s position compared against
the stored `Option<Point>`). -/
inductive PointerEvent where
  | move (position : Option Point)
  | down (button : PointerButton)
  | up (button : PointerButton)
deriving Repr, DecidableEq

/-- Model of `ObjectState` from `lib.rs`: the per-node mutable state
record (identity, geometry, dirty flags, hover flag). -/
structure ObjectState where
  id : Nat
  globalArea : Area
  globalTransform : Affine
  layoutArea : Area
  layoutBaselineOffset : Fx
  localTransform : Affine
  scrollTranslation : Point
  needsLayout : Bool
  needsCompose : Bool
  wantsCompose : Bool
  childrenChanged : Bool
  transformed : Bool
  hovered : Bool
deriving Repr, DecidableEq

/-- `ObjectState::new`: the defaults a freshly inserted node receives. -/
def ObjectState.new (id : Nat) : ObjectState where
  id := id
  globalArea := Area.zero
  globalTransform := Affine.identity
  layoutArea := Area.zero
  layoutBaselineOffset := 0
  localTransform := Affine.identity
  scrollTranslation := Point.zero
  needsLayout := true
  needsCompose := true
  wantsCompose := true
  childrenChanged := true
  transformed := true
  hovered := false

/-- `ObjectState::area` (returns the global bounding area). -/
def ObjectState.area (s : ObjectState) : Area := s.globalArea

/-- `ObjectState::merge_with_child`: OR the child's needs-layout and
children-changed flags into the parent's state. -/
def ObjectState.mergeWithChild (s child : ObjectState) : ObjectState :=
  { s with
    needsLayout := s.needsLayout || child.needsLayout
    childrenChanged := s.childrenChanged || child.childrenChanged }

/-- A drawing command sent to the external `Renderer` sink
(`Renderer::text` / `quad` / `image` in `lib.rs`). -/
inductive DrawCmd where
  | text (content : String) (position : Point) (fontSize : Fx) (color : Rgba)
  | quad (position : Point) (size : Size) (color : Rgba)
  | image (textureId : Nat) (position : Point) (size : Size)
deriving Repr, DecidableEq

/-- One step an `Object::layout` implementation can take through its
`LayoutPass` context: `do_layout`, `place_child`, `request_layout`,
`request_compose` (`lib.rs`, `impl LayoutPass` and the `multi_impl`
block). -/
inductive LayoutAction where
  | doLayout (childId : Nat) (size : Size)
  | placeChild (childId : Nat) (position : Point)
  | requestLayout
  | requestCompose
deriving Repr, DecidableEq

/-- One step an `Object::compose` implementation can take through its
`ComposePass` context: `set_child_scroll`, `request_layout`,
`request_compose`. -/
inductive ComposeAction where
  | setChildScroll (childId : Nat) (translation : Point)
  | requestLayout
  | requestCompose
deriving Repr, DecidableEq

/-- One step an `Object::render` / `render_overlay` implementation can
take: emit a drawing command computed from the node's current state
(`pass.position()` etc.), or request layout/compose through the
`RenderPass` context. -/
inductive RenderAction where
  | emit (cmd : ObjectState → DrawCmd)
  | requestLayout
  | requestCompose

/-- Modelled from the spec: the effect of an event callback through its
`EventPass` context — mark the event handled (stopping bubbling),
request pointer capture, request layout or compose.  (`EventPass`'s
setter methods such as `set_handled` and `capture_pointer` live in a
source file missing from `src/`; the fields themselves are in
`lib.rs`.) -/
structure EventEffect where
  handled : Bool
  capture : Bool
  requestLayout : Bool
  requestCompose : Bool

/-- The effect-free event callback result. -/
def EventEffect.none : EventEffect := ⟨false, false, false, false⟩

/-- The engine-facing data and callback behaviour of one `Object` trait
implementation (`lib.rs` trait `Object`).  `childrenIds` models
`children_ids()`, `accepts` models `accepts_pointer_events()`,
`updateRequestLayout`/`updateRequestCompose` model `request_layout` /
`request_compose` calls made during `update_children` (the promotion of
pending child descriptors is modelled separately by the `pending` list
carried next to this core). -/
structure ObjCore where
  accepts : Bool
  cursor : CursorIcon
  childrenIds : List Nat
  updateRequestLayout : Bool
  updateRequestCompose : Bool
  layoutProg : Size → List LayoutAction
  composeProg : List ComposeAction
  renderActs : List RenderAction
  overlayActs : List RenderAction
  onHoverEff : Bool → EventEffect
  onPointerEff : PointerEvent → EventEffect

mutual

/-- A polymorphic object: its engine-facing core plus the pending child
descriptors its `update_children` callback will promote (in list order)
via `UpdatePass::update_child`. -/
inductive Obj : Type where
  | mk (core : ObjCore) (pending : List ChildObject)

/-- Model of `ChildObject` from `object_tree.rs`: a handle to a
potentially uninstantiated child object. -/
inductive ChildObject : Type where
  | mk (id : Nat) (inner : ChildObjectInner)

/-- Model of `ChildObjectInner`. -/
inductive ChildObjectInner : Type where
  | existing
  | new (builder : ObjectBuilder)

/-- Model of `ObjectBuilder` (an id plus the object instance to be
inserted). -/
inductive ObjectBuilder : Type where
  | mk (id : Nat) (object : Obj)

end

def Obj.core : Obj → ObjCore
  | .mk c _ => c

def Obj.pending : Obj → List ChildObject
  | .mk _ p => p

def ChildObject.id : ChildObject → Nat
  | .mk i _ => i

def ChildObject.inner : ChildObject → ChildObjectInner
  | .mk _ inn => inn

def ObjectBuilder.id : ObjectBuilder → Nat
  | .mk i _ => i

def ObjectBuilder.object : ObjectBuilder → Obj
  | .mk _ o => o

/-- `ChildObject::take_inner`: replace the inner value with `Existing`
and return the builder if the descriptor was still pending. -/
def ChildObject.takeInner (c : ChildObject) : Option ObjectBuilder × ChildObject :=
  match c with
  | .mk i (.new b) => (some b, .mk i .existing)
  | .mk i .existing => (none, .mk i .existing)

/-- One node of the object tree: the stored object, its state record and
its stored children.  This is the reachable-tree view of the flat
`HashMap` node store of `object_tree.rs` (a node's `children: Vec<u64>`
ids are the `state.id`s of this list, and the parent links are the
inverse of the nesting). -/
inductive ObjNode : Type where
  | mk (object : Obj) (state : ObjectState) (children : List ObjNode)

def ObjNode.object : ObjNode → Obj
  | .mk o _ _ => o

def ObjNode.state : ObjNode → ObjectState
  | .mk _ s _ => s

def ObjNode.children : ObjNode → List ObjNode
  | .mk _ _ cs => cs

/-- Model of `InteractionState` from `object_tree.rs`. -/
structure InteractionState where
  viewSize : Size
  pointerPosition : Option Point
  pointerCaptureTarget : Option Nat
  hoveredPath : List Nat
  cursorIcon : CursorIcon

/-- `InteractionState::default`. -/
def InteractionState.default : InteractionState where
  viewSize := Size.zero
  pointerPosition := none
  pointerCaptureTarget := none
  hoveredPath := []
  cursorIcon := CursorIcon.default

/-- Model of `ObjectTree`: the root node (holding the whole reachable
store) plus the tree-wide interaction state. -/
structure ObjectTree where
  root : ObjNode
  interaction : InteractionState

/-- Outcomes of a fallible engine step: `fatal` models a Rust panic
(an `expect` failure on a contract violation), `outOfFuel` marks
exhaustion of the recursion fuel of the model and corresponds to no
behaviour of the source. -/
inductive Err where
  | fatal
  | outOfFuel
deriving Repr, DecidableEq

/-- Child lookup by id among a node's stored children
(`ObjectChildrenMut::get` / `get_mut`: the id must be a child of this
exact node). -/
def findChild? (ch : List ObjNode) (i : Nat) : Option ObjNode :=
  ch.find? (fun c => c.state.id == i)

/-- Write back a mutated child (the effect of releasing an
`ObjectNodeMut` borrow obtained through `get_mut`). -/
def replaceChild : List ObjNode → Nat → ObjNode → List ObjNode
  | [], _, _ => []
  | c :: cs, i, n => if c.state.id == i then n :: cs else c :: replaceChild cs i n

mutual

/-- Tree-wide node lookup by id (`ObjectTree::find` /
`ObjectTree::find_mut`, which consult the flat store; on a well-formed
tree this is a search of the reachable tree). -/
def findInNode (n : ObjNode) (i : Nat) : Option ObjNode :=
  match n with
  | .mk o s cs => if s.id = i then some (.mk o s cs) else findInList cs i

def findInList (l : List ObjNode) (i : Nat) : Option ObjNode :=
  match l with
  | [] => none
  | c :: cs =>
    match findInNode c i with
    | some r => some r
    | none => findInList cs i

end

mutual

/-- Bottom-up id path from a node to the root
(`ObjectTree::get_id_path(id, None)`): `none` when the id is absent. -/
def pathInNode (n : ObjNode) (i : Nat) : Option (List Nat) :=
  match n with
  | .mk _ s cs =>
    if s.id = i then some [i]
    else
      match pathInList cs i with
      | some p => some (p ++ [s.id])
      | none => none

def pathInList (l : List ObjNode) (i : Nat) : Option (List Nat) :=
  match l with
  | [] => none
  | c :: cs =>
    match pathInNode c i with
    | some p => some p
    | none => pathInList cs i

end

mutual

/-- All ids stored in a subtree. -/
def subtreeIds : ObjNode → List Nat
  | .mk _ s cs => s.id :: subtreeIdsList cs

def subtreeIdsList : List ObjNode → List Nat
  | [] => []
  | c :: cs => subtreeIds c ++ subtreeIdsList cs

end

/-- `UpdatePass::update_child`: take the descriptor's builder; when it
was still pending, insert a fresh node (builder's object, default state
for the builder's id, no children) into the store as a child of the
current node; otherwise do nothing. -/
def updateChild (children : List ObjNode) (child : ChildObject) :
    List ObjNode × ChildObject :=
  match child.takeInner with
  | (none, c') => (children, c')
  | (some b, c') =>
    (children ++ [ObjNode.mk b.object (ObjectState.new b.id) []], c')

/-- Promote every pending descriptor of the object in order (the
modelled body of an `Object::update_children` implementation: one
`pass.update_child(..)` call per descriptor). -/
def promoteAll : List ObjNode → List ChildObject →
    List ObjNode × List ChildObject
  | ch, [] => (ch, [])
  | ch, c :: cs =>
    let (ch', c') := updateChild ch c
    let (ch'', cs') := promoteAll ch' cs
    (ch'', c' :: cs')

/-- The modelled `update_children` callback: promote pending children,
then apply the object's own `request_layout` / `request_compose`
calls. -/
def runUpdateChildrenCallback (obj : Obj) (st : ObjectState)
    (children : List ObjNode) : Obj × ObjectState × List ObjNode :=
  let pr := promoteAll children obj.pending
  let st := if obj.core.updateRequestLayout then { st with needsLayout := true } else st
  let st :=
    if obj.core.updateRequestCompose then
      { st with needsCompose := true, wantsCompose := true }
    else st
  (.mk obj.core pr.2, st, pr.1)

/-- The child-iteration tail of `update_object_tree`
(`for_each_child_object` + `merge_with_child`): visit each declared
child id in order, recurse via `rec`, write the child back and OR its
dirty flags into the parent's state; a declared id with no stored child
is the fatal `expect` of `for_each_child_object`. -/
def updateChildrenIds (rec : ObjNode → Except Err (ObjNode × List Nat)) :
    List Nat → ObjectState → List ObjNode →
    Except Err (ObjectState × List ObjNode × List Nat)
  | [], st, ch => pure (st, ch, [])
  | i :: ids, st, ch =>
    match findChild? ch i with
    | none => throw .fatal
    | some c => do
      let (c', clog) ← rec c
      let st' := st.mergeWithChild c'.state
      let ch' := replaceChild ch i c'
      let (st'', ch'', log) ← updateChildrenIds rec ids st' ch'
      pure (st'', ch'', clog ++ log)

/-- `update_object_tree` (`lib.rs`): skip the whole subtree when the
children-changed flag is clear; otherwise clear it, run the
`update_children` callback, then recurse into every declared child and
merge its flags.  The returned list logs, in invocation order, the id of
every node whose `update_children` callback ran. -/
def updateNode : Nat → ObjNode → Except Err (ObjNode × List Nat)
  | 0, _ => throw .outOfFuel
  | fuel + 1, .mk obj st ch =>
    if !st.childrenChanged then pure (.mk obj st ch, [])
    else
      let cb := runUpdateChildrenCallback obj { st with childrenChanged := false } ch
      (updateChildrenIds (updateNode fuel) cb.1.core.childrenIds cb.2.1 cb.2.2).map
        (fun r => (.mk cb.1 r.1 r.2.1, st.id :: r.2.2))

/-- `update_pass` (`lib.rs`): run `update_object_tree` from the root. -/
def updatePass (fuel : Nat) (t : ObjectTree) :
    Except Err (ObjectTree × List Nat) := do
  let (root', log) ← updateNode fuel t.root
  pure ({ t with root := root' }, log)

/-- `place_object` (`lib.rs`): round the position, mark the node
transformed when the rounded position differs from the stored one, then
store it. -/
def placeObject (st : ObjectState) (position : Point) : ObjectState :=
  let position := position.round
  let st :=
    if !(position.beq st.layoutArea.position) then { st with transformed := true } else st
  { st with layoutArea := { st.layoutArea with position := position } }

/-- Interpret a layout program against the `LayoutPass` context:
`do_layout` recurses into a child (via `rec`) and merges its flags,
`place_child` applies `place_object` to the child, and the request
methods set the node's own dirty flags.  A missing child id is the
fatal `expect` of `LayoutPass::do_layout` / `place_child`. -/
def runLayoutActs (rec : ObjNode → Size → Except Err (ObjNode × List Nat)) :
    List LayoutAction → ObjectState → List ObjNode →
    Except Err (ObjectState × List ObjNode × List Nat)
  | [], st, ch => pure (st, ch, [])
  | .doLayout cid csize :: acts, st, ch =>
    match findChild? ch cid with
    | none => throw .fatal
    | some c => do
      let (c', clog) ← rec c csize
      let st' := st.mergeWithChild c'.state
      let ch' := replaceChild ch cid c'
      let (st'', ch'', log) ← runLayoutActs rec acts st' ch'
      pure (st'', ch'', clog ++ log)
  | .placeChild cid pos :: acts, st, ch =>
    match findChild? ch cid with
    | none => throw .fatal
    | some c =>
      runLayoutActs rec acts st
        (replaceChild ch cid (.mk c.object (placeObject c.state pos) c.children))
  | .requestLayout :: acts, st, ch =>
    runLayoutActs rec acts { st with needsLayout := true } ch
  | .requestCompose :: acts, st, ch =>
    runLayoutActs rec acts { st with needsCompose := true, wantsCompose := true } ch

/-- `layout_object` (`lib.rs`): round the size constraint, short-circuit
when needs-layout is clear, otherwise clear the flag, store the rounded
size, run the object's layout callback, and finally set both
needs-compose and wants-compose.  The returned list logs the id of every
node whose `layout` callback ran. -/
def layoutNode : Nat → ObjNode → Size → Except Err (ObjNode × List Nat)
  | 0, _, _ => throw .outOfFuel
  | fuel + 1, .mk obj st ch, size =>
    let size := size.round
    if !st.needsLayout then pure (.mk obj st ch, [])
    else do
      let st₁ := { st with needsLayout := false }
      let st₂ := { st₁ with layoutArea := { st₁.layoutArea with size := size } }
      let (st₃, ch', log) ← runLayoutActs (layoutNode fuel) (obj.core.layoutProg size) st₂ ch
      let st₄ := { st₃ with needsCompose := true, wantsCompose := true }
      pure (.mk obj st₄ ch', st.id :: log)

/-- `layout_pass` (`lib.rs`): lay out the root against the current view
size. -/
def layoutPass (fuel : Nat) (t : ObjectTree) :
    Except Err (ObjectTree × List Nat) := do
  let (root', log) ← layoutNode fuel t.root t.interaction.viewSize
  pure ({ t with root := root' }, log)

/-- Interpret a render program against the `RenderPass` context: each
`emit` evaluates its drawing command against the node's current state
(the callback reads `pass.position()` etc.) and sends it to the sink;
the request methods set the node's own dirty flags. -/
def runRenderActs : List RenderAction → ObjectState → ObjectState × List DrawCmd
  | [], st => (st, [])
  | .emit f :: acts, st =>
    let (st', cmds) := runRenderActs acts st
    (st', f st :: cmds)
  | .requestLayout :: acts, st =>
    runRenderActs acts { st with needsLayout := true }
  | .requestCompose :: acts, st =>
    runRenderActs acts { st with needsCompose := true, wantsCompose := true }

/-- The child-iteration of `render_object` (`for_each_child_object` +
`merge_with_child`). -/
def renderChildrenIds (rec : ObjNode → Except Err (ObjNode × List DrawCmd)) :
    List Nat → ObjectState → List ObjNode →
    Except Err (ObjectState × List ObjNode × List DrawCmd)
  | [], st, ch => pure (st, ch, [])
  | i :: ids, st, ch =>
    match findChild? ch i with
    | none => throw .fatal
    | some c => do
      let (c', ccmds) ← rec c
      let st' := st.mergeWithChild c'.state
      let ch' := replaceChild ch i c'
      let (st'', ch'', cmds) ← renderChildrenIds rec ids st' ch'
      pure (st'', ch'', ccmds ++ cmds)

/-- `render_object` (`lib.rs`): no dirty-flag gating — render the node's
own content, recurse into every declared child in declared order
(merging each child's flags into the parent), then render the node's
overlay content. -/
def renderNode : Nat → ObjNode → Except Err (ObjNode × List DrawCmd)
  | 0, _ => throw .outOfFuel
  | fuel + 1, .mk obj st ch => do
    let (st₁, cmds₁) := runRenderActs obj.core.renderActs st
    let (st₂, ch', cmds₂) ← renderChildrenIds (renderNode fuel) obj.core.childrenIds st₁ ch
    let (st₃, cmds₃) := runRenderActs obj.core.overlayActs st₂
    pure (.mk obj st₃ ch', cmds₁ ++ cmds₂ ++ cmds₃)

/-- `render_pass` (`lib.rs`). -/
def renderPass (fuel : Nat) (t : ObjectTree) :
    Except Err (ObjectTree × List DrawCmd) := do
  let (root', cmds) ← renderNode fuel t.root
  pure ({ t with root := root' }, cmds)

/-- Interpret a compose program against the `ComposePass` context:
`set_child_scroll` rounds the translation and, when it differs from the
child's stored scroll translation, stores it and marks the child
transformed; the request methods set the node's own dirty flags. -/
def runComposeActs : List ComposeAction → ObjectState → List ObjNode →
    Except Err (ObjectState × List ObjNode)
  | [], st, ch => pure (st, ch)
  | .setChildScroll cid tr :: acts, st, ch =>
    match findChild? ch cid with
    | none => throw .fatal
    | some c =>
      let tr := tr.round
      let cst := c.state
      let cst' :=
        if !(tr.beq cst.scrollTranslation) then
          { cst with scrollTranslation := tr, transformed := true }
        else cst
      runComposeActs acts st (replaceChild ch cid (.mk c.object cst' c.children))
  | .requestLayout :: acts, st, ch =>
    runComposeActs acts { st with needsLayout := true } ch
  | .requestCompose :: acts, st, ch =>
    runComposeActs acts { st with needsCompose := true, wantsCompose := true } ch

/-- The child-iteration of `compose_object`. -/
def composeChildrenIds (rec : ObjNode → Except Err ObjNode) :
    List Nat → ObjectState → List ObjNode →
    Except Err (ObjectState × List ObjNode)
  | [], st, ch => pure (st, ch)
  | i :: ids, st, ch =>
    match findChild? ch i with
    | none => throw .fatal
    | some c => do
      let c' ← rec c
      let st' := st.mergeWithChild c'.state
      let ch' := replaceChild ch i c'
      composeChildrenIds rec ids st' ch'

/-- `compose_object` (`lib.rs`): skip the subtree unless the node is
marked transformed (by itself or an ancestor) or needs compose;
otherwise recompute the global transform and bounding area, run the
compose callback when wants-compose is set, clear the three
compose-related flags, then recurse into every declared child. -/
def composeNode : Nat → ObjNode → Affine → Bool → Except Err ObjNode
  | 0, _, _, _ => throw .outOfFuel
  | fuel + 1, .mk obj st ch, parentGlobalTransform, parentTransformed =>
    let transformed := parentTransformed || st.transformed
    if !transformed && !st.needsCompose then pure (.mk obj st ch)
    else do
      let localTranslation := st.scrollTranslation.add st.layoutArea.position
      let st₁ :=
        { st with
          globalTransform :=
            parentGlobalTransform.mul (st.localTransform.withTranslation localTranslation) }
      let st₂ :=
        { st₁ with
          globalArea := st₁.globalTransform.transformArea (Area.fromSize st₁.layoutArea.size) }
      let (st₃, ch₁) ←
        if st₂.wantsCompose then runComposeActs obj.core.composeProg st₂ ch
        else pure (st₂, ch)
      let st₄ := { st₃ with needsCompose := false, wantsCompose := false, transformed := false }
      let (st₅, ch₂) ←
        composeChildrenIds (fun c => composeNode fuel c st₄.globalTransform transformed)
          obj.core.childrenIds st₄ ch₁
      pure (.mk obj st₅ ch₂)

/-- `compose_pass` (`lib.rs`). -/
def composePass (fuel : Nat) (t : ObjectTree) : Except Err ObjectTree := do
  let root' ← composeNode fuel t.root Affine.identity false
  pure { t with root := root' }

/-- The child loop of `find_pointer_target`: try each id (the caller
passes the declared ids already reversed), returning the first hit. -/
def findPointerChildren (rec : ObjNode → Except Err (Option Nat)) :
    List Nat → List ObjNode → Except Err (Option Nat)
  | [], _ => pure none
  | i :: ids, ch =>
    match findChild? ch i with
    | none => throw .fatal
    | some c => do
      match ← rec c with
      | some r => pure (some r)
      | none => findPointerChildren rec ids ch

/-- `find_pointer_target` (`lib.rs`): a node is a candidate only when
the position lies inside its global bounding area; its declared children
are tested in reverse declared order, and the node itself is returned
only when no descendant claimed the hit and the node accepts pointer
events. -/
def findPointerTarget : Nat → ObjNode → Point → Except Err (Option Nat)
  | 0, _, _ => throw .outOfFuel
  | fuel + 1, .mk obj st ch, position =>
    if !(st.area.contains position) then pure none
    else do
      match ← findPointerChildren (fun c => findPointerTarget fuel c position)
          obj.core.childrenIds.reverse ch with
      | some r => pure (some r)
      | none => if obj.core.accepts then pure (some st.id) else pure none

/-- Apply the state-visible part of an event callback's `EventPass`
effects (`request_layout`, `request_compose`). -/
def applyEffect (st : ObjectState) (e : EventEffect) : ObjectState :=
  let st := if e.requestLayout then { st with needsLayout := true } else st
  if e.requestCompose then { st with needsCompose := true, wantsCompose := true } else st

/-- An event callback as `event_pass` / `single_event_pass` receive it:
given the visited object and its state, produce the updated object and
state plus the `EventPass` effects the callback performed. -/
def EvCb : Type := Obj → ObjectState → Obj × ObjectState × EventEffect

mutual

/-- `event_pass` (`lib.rs`), as a recursion over the reachable tree: the
callback runs at the target, then bubbles — it runs at each successive
ancestor as long as no visited node marked the event handled — and every
ancestor on the path to the root ORs the dirty flags of its child on the
path into its own state (the `merge_with_child` in the loop), whether or
not the event was handled.  Returns the updated subtree, the final
handled flag, the surviving pointer-capture request and the ids at which
the callback ran (in invocation order); `none` when the target id is not
in the subtree (the fatal `expect` of `event_pass`). -/
def eventPassNode (cb : EvCb) (tgt : Nat) :
    ObjNode → Option (ObjNode × Bool × Option Nat × List Nat)
  | .mk o s ch =>
    if s.id = tgt then
      let (o', s', eff) := cb o s
      some (.mk o' (applyEffect s' eff) ch, eff.handled,
        if eff.capture then some s.id else none, [s.id])
    else
      match eventPassList cb tgt ch with
      | none => none
      | some (ch', childState, childHandled, childCap, childInv) =>
        let s₁ := s.mergeWithChild childState
        if childHandled then
          some (.mk o s₁ ch', true, childCap, childInv)
        else
          let (o', s₂, eff) := cb o s₁
          some (.mk o' (applyEffect s₂ eff) ch', eff.handled,
            (if eff.capture then some s.id else childCap), childInv ++ [s.id])

def eventPassList (cb : EvCb) (tgt : Nat) :
    List ObjNode → Option (List ObjNode × ObjectState × Bool × Option Nat × List Nat)
  | [] => none
  | c :: cs =>
    match eventPassNode cb tgt c with
    | some (c', h, cap, inv) => some (c' :: cs, c'.state, h, cap, inv)
    | none =>
      match eventPassList cb tgt cs with
      | some (cs', cst, h, cap, inv) => some (c :: cs', cst, h, cap, inv)
      | none => none

end

mutual

/-- `single_event_pass` (`lib.rs`), as a recursion over the reachable
tree: the callback runs exactly once, at the target, and then every
ancestor on the path to the root ORs the dirty flags of its path child
into its own state.  `none` when the target id is not in the subtree
(the fatal `expect`). -/
def singlePassNode (cb : EvCb) (tgt : Nat) :
    ObjNode → Option (ObjNode × Option Nat × List Nat)
  | .mk o s ch =>
    if s.id = tgt then
      let (o', s', eff) := cb o s
      some (.mk o' (applyEffect s' eff) ch,
        if eff.capture then some s.id else none, [s.id])
    else
      match singlePassList cb tgt ch with
      | none => none
      | some (ch', childState, cap, inv) =>
        some (.mk o (s.mergeWithChild childState) ch', cap, inv)

def singlePassList (cb : EvCb) (tgt : Nat) :
    List ObjNode → Option (List ObjNode × ObjectState × Option Nat × List Nat)
  | [] => none
  | c :: cs =>
    match singlePassNode cb tgt c with
    | some (c', cap, inv) => some (c' :: cs, c'.state, cap, inv)
    | none =>
      match singlePassList cb tgt cs with
      | some (cs', cst, cap, inv) => some (c :: cs', cst, cap, inv)
      | none => none

end

/-- Apply a surviving capture request to the interaction state
(`capture_pointer` writes the visited node's id into
`pointer_capture_target`). -/
def applyCapture (inter : InteractionState) (cap : Option Nat) : InteractionState :=
  match cap with
  | some cid => { inter with pointerCaptureTarget := some cid }
  | none => inter

/-- Tree-level `event_pass`: with no target the loop body never runs;
with a target absent from the store the pass is the fatal `expect`. -/
def eventPass (t : ObjectTree) (target : Option Nat) (cb : EvCb) :
    Except Err (ObjectTree × List Nat) :=
  match target with
  | none => pure (t, [])
  | some tgt =>
    match eventPassNode cb tgt t.root with
    | none => throw .fatal
    | some (root', _, cap, inv) =>
      pure ({ root := root', interaction := applyCapture t.interaction cap }, inv)

/-- Tree-level `single_event_pass`. -/
def singleEventPass (t : ObjectTree) (target : Option Nat) (cb : EvCb) :
    Except Err (ObjectTree × List Nat) :=
  match target with
  | none => pure (t, [])
  | some tgt =>
    match singlePassNode cb tgt t.root with
    | none => throw .fatal
    | some (root', cap, inv) =>
      pure ({ root := root', interaction := applyCapture t.interaction cap }, inv)

/-- `Option::or`. -/
def optOr (a b : Option Nat) : Option Nat :=
  match a with
  | some x => some x
  | none => b

/-- The hit-test half of `update_pointer_pass`: the hovered object is
the pointer target of the current pointer position, absent when the
pointer left the surface. -/
def nextHoveredObject (fuel : Nat) (t : ObjectTree) : Except Err (Option Nat) :=
  match t.interaction.pointerPosition with
  | some pos => findPointerTarget fuel t.root pos
  | none => pure none

/-- One of the two hovered-path maintenance loops of
`update_pointer_pass`: for each id on the path, when the node still
exists and its hover flag disagrees with its membership in the new
hovered path, run an `event_pass` whose callback silently rewrites the
hover flag (the `on_child_hover` notification is commented out in the
source). -/
def hoverFlagLoop (t : ObjectTree) (hoveredSet : List Nat) :
    List Nat → Except Err ObjectTree
  | [] => pure t
  | i :: ids => do
    let t' ←
      match findInNode t.root i with
      | some n =>
        if n.state.hovered ≠ hoveredSet.contains i then
          let hv := hoveredSet.contains i
          (eventPass t (some i)
            (fun o s => (o, { s with hovered := hv }, EventEffect.none))).map Prod.fst
        else pure t
      | none => pure t
    hoverFlagLoop t' hoveredSet ids

/-- The hovered-path resynchronisation phase of `update_pointer_pass`:
when the hovered path changed, rewrite the hover flags along the old
path and then along the new one. -/
def hoverFlagPhase (t : ObjectTree) (prevPath nextPath : List Nat) :
    Except Err ObjectTree :=
  if prevPath ≠ nextPath then do
    let t ← hoverFlagLoop t nextPath prevPath
    hoverFlagLoop t nextPath nextPath
  else pure t

/-- The deepest-node notification phase of `update_pointer_pass`: when
the deepest hovered node changed, run a `single_event_pass` on the old
deepest node (clearing its hover flag and calling `on_hover(false)`)
then one on the new deepest node (setting its flag and calling
`on_hover(true)`).  The returned list logs every `on_hover` invocation
as (node id, hovered flag). -/
def hoverNotifyPhase (t : ObjectTree) (prevObj nextObj : Option Nat) :
    Except Err (ObjectTree × List (Nat × Bool)) :=
  if prevObj ≠ nextObj then do
    let (t, inv₁) ← singleEventPass t prevObj
      (fun o s => (o, { s with hovered := false }, o.core.onHoverEff false))
    let (t, inv₂) ← singleEventPass t nextObj
      (fun o s => (o, { s with hovered := true }, o.core.onHoverEff true))
    pure (t, inv₁.map (fun i => (i, false)) ++ inv₂.map (fun i => (i, true)))
  else pure (t, [])

/-- The cursor-icon resolution of `update_pointer_pass`: read the icon
from the capture target if one is set, else from the new hovered node;
a set-but-missing id is the fatal `expect` of the source. -/
def resolveCursorIcon (t : ObjectTree) (nextObj : Option Nat) :
    Except Err CursorIcon :=
  match optOr t.interaction.pointerCaptureTarget nextObj with
  | some nid =>
    match findInNode t.root nid with
    | some n => pure n.object.core.cursor
    | none => throw Err.fatal
  | none => pure CursorIcon.default

/-- The body of `update_pointer_pass` once the new hovered object is
known: resynchronise hover flags along the changed path, fire the
paired deepest-node notifications, resolve the cursor icon and store
the new hovered path. -/
def updatePointerPassTail (t : ObjectTree) (nextObj : Option Nat) :
    Except Err (ObjectTree × List (Nat × Bool)) := do
  let nextPath :=
    match nextObj with
    | some nid => (pathInNode t.root nid).getD []
    | none => []
  let prevPath := t.interaction.hoveredPath
  let t₀ := { t with interaction := { t.interaction with hoveredPath := [] } }
  let prevObj := prevPath.head?
  let t₁ ← hoverFlagPhase t₀ prevPath nextPath
  let (t₂, hoverLog) ← hoverNotifyPhase t₁ prevObj nextObj
  let cursor ← resolveCursorIcon t₂ nextObj
  pure ({ t₂ with interaction :=
    { t₂.interaction with cursorIcon := cursor, hoveredPath := nextPath } }, hoverLog)

/-- `update_pointer_pass` (`lib.rs`): recompute the hovered node and its
root path, resynchronise per-node hover flags when the path changed,
fire the paired deepest-node `on_hover(false)` / `on_hover(true)`
notifications when the deepest hovered node changed, then resolve the
frame's cursor icon.  The returned list logs every `on_hover`
invocation as (node id, hovered). -/
def updatePointerPass (fuel : Nat) (t : ObjectTree) :
    Except Err (ObjectTree × List (Nat × Bool)) :=
  nextHoveredObject fuel t >>= updatePointerPassTail t

/-- `ObjectTree::get_pointer_target`: prefer the capture target when it
is set and still exists; otherwise fall back to hit-testing the current
pointer position; absence everywhere is a normal `none`. -/
def getPointerTarget (fuel : Nat) (t : ObjectTree) : Except Err (Option Nat) :=
  let fallback : Except Err (Option Nat) :=
    match t.interaction.pointerPosition with
    | some pos => findPointerTarget fuel t.root pos
    | none => pure none
  match t.interaction.pointerCaptureTarget with
  | some ct => if (findInNode t.root ct).isSome then pure (some ct) else fallback
  | none => fallback

/-- The tags of the top-level passes an entry point runs, recorded in
run order. -/
inductive PassTag where
  | event
  | hover
  | layout
  | update
  | compose
deriving Repr, DecidableEq

/-- The tail of `ObjectTree::handle_pointer_event` after the
early-return check: route the event from the pointer target with
bubbling, clear capture on `Up`, then run hover maintenance, Layout,
Update and Compose. -/
def handlePointerEventRest (fuel : Nat) (t : ObjectTree) (ev : PointerEvent) :
    Except Err (ObjectTree × List PassTag) := do
  let tgt ← getPointerTarget fuel t
  let (t, _) ← eventPass t tgt (fun o s => (o, s, o.core.onPointerEff ev))
  let t :=
    match ev with
    | .up _ => { t with interaction := { t.interaction with pointerCaptureTarget := none } }
    | _ => t
  let (t, _) ← updatePointerPass fuel t
  let (t, _) ← layoutPass fuel t
  let (t, _) ← updatePass fuel t
  let t ← composePass fuel t
  pure (t, [.event, .hover, .layout, .update, .compose])

/-- `ObjectTree::handle_pointer_event` (`object_tree.rs`): a `Move`
whose position equals the stored pointer position returns immediately;
otherwise a `Move` stores the new position, and the event is processed
by `handlePointerEventRest`. -/
def handlePointerEvent (fuel : Nat) (t : ObjectTree) (ev : PointerEvent) :
    Except Err (ObjectTree × List PassTag) :=
  match ev with
  | .move position =>
    if optPointBeq position t.interaction.pointerPosition then pure (t, [])
    else
      handlePointerEventRest fuel
        { t with interaction := { t.interaction with pointerPosition := position } }
        (.move position)
  | _ => handlePointerEventRest fuel t ev

/-- `ObjectTree::resize` (`object_tree.rs`): a no-op when the size is
unchanged; otherwise store the new view size and run Layout, Update and
Compose in that order. -/
def resize (fuel : Nat) (t : ObjectTree) (size : Size) :
    Except Err (ObjectTree × List PassTag) :=
  if size.beq t.interaction.viewSize then pure (t, [])
  else do
    let t := { t with interaction := { t.interaction with viewSize := size } }
    let (t, _) ← layoutPass fuel t
    let (t, _) ← updatePass fuel t
    let t ← composePass fuel t
    pure (t, [.layout, .update, .compose])

mutual

/-- No layout callback anywhere in the subtree ever calls
`request_layout` (the "no intervening mutation" hypothesis of the
dirty-short-circuit property). -/
def noReqNode : ObjNode → Prop
  | .mk o _ cs => (∀ s, LayoutAction.requestLayout ∉ o.core.layoutProg s) ∧ noReqList cs

def noReqList : List ObjNode → Prop
  | [] => True
  | c :: cs => noReqNode c ∧ noReqList cs

end

/-- The draw commands a render program emits when run against a given
state (the `emit` actions evaluated in order). -/
def emitsOf (acts : List RenderAction) (st : ObjectState) : List DrawCmd :=
  acts.filterMap (fun a =>
    match a with
    | .emit f => some (f st)
    | _ => none)

mutual

/-- The render output the spec describes: the node's own content, then
every stored child in declared order, then the node's overlay
content. -/
def specRenderNode : ObjNode → List DrawCmd
  | .mk o s cs => emitsOf o.core.renderActs s ++ specRenderList cs ++ emitsOf o.core.overlayActs s

def specRenderList : List ObjNode → List DrawCmd
  | [] => []
  | c :: cs => specRenderNode c ++ specRenderList cs

end

/-- A render program that only draws (no `request_layout` /
`request_compose` calls). -/
def pureActs (acts : List RenderAction) : Prop :=
  ∀ a ∈ acts, ∃ f, a = RenderAction.emit f

mutual

/-- Every render and overlay program in the subtree only draws. -/
def pureRenderNode : ObjNode → Prop
  | .mk o _ cs => pureActs o.core.renderActs ∧ pureActs o.core.overlayActs ∧ pureRenderList cs

def pureRenderList : List ObjNode → Prop
  | [] => True
  | c :: cs => pureRenderNode c ∧ pureRenderList cs

end

mutual

/-- Store well-formedness for a subtree: every node's declared child ids
are exactly the ids of its stored children, in order and without
duplicates (the invariant of §3 of the spec). -/
def wfNode : ObjNode → Prop
  | .mk o _ cs =>
    o.core.childrenIds = cs.map (fun c => c.state.id) ∧
    (cs.map (fun c => c.state.id)).Nodup ∧ wfList cs

def wfList : List ObjNode → Prop
  | [] => True
  | c :: cs => wfNode c ∧ wfList cs

end

mutual

/-- Upward closure of the mergeable dirty flags: every parent's
needs-layout / children-changed flag already covers each of its
children's (the state in which `merge_with_child` is a no-op). -/
def flagsClosedNode : ObjNode → Prop
  | .mk _ s cs =>
    (∀ c ∈ cs, (c.state.needsLayout = true → s.needsLayout = true) ∧
      (c.state.childrenChanged = true → s.childrenChanged = true)) ∧
    flagsClosedList cs

def flagsClosedList : List ObjNode → Prop
  | [] => True
  | c :: cs => flagsClosedNode c ∧ flagsClosedList cs

end

/-- A leaf object core: accepts pointer events, declares no children,
performs nothing in any callback. -/
def leafCore : ObjCore where
  accepts := true
  cursor := .default
  childrenIds := []
  updateRequestLayout := false
  updateRequestCompose := false
  layoutProg := fun _ => []
  composeProg := []
  renderActs := []
  overlayActs := []
  onHoverEff := fun _ => EventEffect.none
  onPointerEff := fun _ => EventEffect.none

def leafObj : Obj := .mk leafCore []

/-- A tree holding a single default leaf node. -/
def exLeafTree : ObjectTree :=
  { root := .mk leafObj (ObjectState.new 0) []
    interaction := InteractionState.default }

/-- Concrete input for the reconciliation-idempotence claim: a pending
descriptor for id 7. -/
def exPendingChild : ChildObject := .mk 7 (.new (.mk 7 leafObj))

/-- Concrete input for the update-pass claim: a parent declaring child
id 5, with a pending descriptor for it. -/
def exC1Node : ObjNode :=
  .mk (.mk { leafCore with childrenIds := [5] } [.mk 5 (.new (.mk 5 leafObj))])
    (ObjectState.new 0) []

/-- The node `exC1Node` after one update pass (the pending child 5 is
promoted and recursed into). -/
def exC1After : ObjNode :=
  ((updateNode 2 exC1Node).map Prod.fst).toOption.getD exC1Node

/-- Concrete input for the layout claims: a parent that lays out and
places its child id 1. -/
def exC2 : ObjectTree :=
  { root :=
      .mk
        (.mk
          { leafCore with
            childrenIds := [1]
            layoutProg := fun sz => [.doLayout 1 sz, .requestCompose] }
          [])
        (ObjectState.new 0) [.mk leafObj (ObjectState.new 1) []]
    interaction := InteractionState.default }

/-- The tree `exC2` after one layout pass. -/
def exC2After : ObjectTree := ((layoutPass 2 exC2).map Prod.fst).toOption.getD exC2

/-- The leaf tree after being resized to 1×1. -/
def exC5After : ObjectTree :=
  ((resize 1 exLeafTree ⟨1, 1⟩).map Prod.fst).toOption.getD exLeafTree

/-- Concrete input for the stale-capture claim: a single-node tree whose
pointer-capture target is id 99, which does not exist in the store. -/
def exC4 : ObjectTree :=
  { root := .mk leafObj (ObjectState.new 0) []
    interaction := { InteractionState.default with pointerCaptureTarget := some 99 } }

/-- Concrete input for the render claim: a clean parent with a child
whose needs-layout flag is set (flags not upward-closed). -/
def exC8 : ObjectTree :=
  { root :=
      .mk (.mk { leafCore with childrenIds := [1] } [])
        { ObjectState.new 0 with needsLayout := false, childrenChanged := false }
        [.mk leafObj (ObjectState.new 1) []]
    interaction := InteractionState.default }

/-- A constant drawing command. -/
def quadCmd : DrawCmd := .quad ⟨0, 0⟩ ⟨1, 1⟩ ⟨0, 0, 0, 0⟩

/-- A child that draws one quad. -/
def exC8GoodChild : ObjNode :=
  .mk (.mk { leafCore with renderActs := [.emit (fun _ => quadCmd)] } [])
    (ObjectState.new 1) []

/-- A well-formed two-node tree with upward-closed dirty flags and
draw-only render programs. -/
def exC8Good : ObjectTree :=
  { root :=
      .mk (.mk { leafCore with childrenIds := [1] } [])
        (ObjectState.new 0) [exC8GoodChild]
    interaction := InteractionState.default }

/-- A node state with a prescribed global area and hover flag. -/
def hoverState (i : Nat) (area : Area) (hv : Bool) : ObjectState :=
  { ObjectState.new i with globalArea := area, hovered := hv }

/-- Sibling leaf with id 1, covering the left half of a 10×10 root. -/
def exC9A : ObjNode := .mk leafObj (hoverState 1 ⟨⟨0, 0⟩, ⟨5, 10⟩⟩ true) []

/-- Sibling leaf with id 2, covering the right half of a 10×10 root,
declared after `exC9A`. -/
def exC9B : ObjNode := .mk leafObj (hoverState 2 ⟨⟨5, 0⟩, ⟨5, 10⟩⟩ false) []

/-- A pointer position inside the root and inside sibling 2. -/
def posC9 : Point := ⟨6, 1⟩

/-- Concrete input for the hover claim: two disjoint siblings (ids 1 and
2) under a root; node 1 is currently hovered and the pointer sits over
node 2. -/
def exC9 : ObjectTree :=
  { root :=
      .mk (.mk { leafCore with childrenIds := [1, 2] } [])
        (hoverState 0 ⟨⟨0, 0⟩, ⟨10, 10⟩⟩ true)
        [exC9A, exC9B]
    interaction :=
      { InteractionState.default with
        pointerPosition := some posC9
        hoveredPath := [1, 0] } }

/-- The tree `exC9` after one pointer-maintenance pass. -/
def exC9After : ObjectTree :=
  ((updatePointerPass 2 exC9).map Prod.fst).toOption.getD exC9

/-- Concrete input for the hit-test claim: the same two-sibling geometry
as `exC9`, with sibling 2 declared after sibling 1 and the position
inside both the parent and sibling 2. -/
def exC3Parent : ObjNode := exC9.root

/-- A size constraint with a fractional width, for the rounding claim. -/
def szC7 : Size := ⟨⟨3, 2⟩, ⟨2, 1⟩⟩

/-- The root of `exC2` after being laid out against `szC7`. -/
def exC7After : ObjNode :=
  ((layoutNode 2 exC2.root szC7).map Prod.fst).toOption.getD exC2.root

/-! Helper lemmas. -/

theorem bind_ok {α β : Type} {x : Except Err α} {f : α → Except Err β} {b : β}
    (h : x >>= f = .ok b) : ∃ a, x = .ok a ∧ f a = .ok b := by
  cases x with
  | error e =>
    simp only [Bind.bind, Except.bind] at h
    exact Except.noConfusion h
  | ok a => exact ⟨a, rfl, by simpa only [Bind.bind, Except.bind] using h⟩

theorem map_ok {α β : Type} {x : Except Err α} {g : α → β} {b : β}
    (h : x.map g = .ok b) : ∃ a, x = .ok a ∧ g a = b := by
  cases x with
  | error e =>
    simp only [Except.map] at h
    exact Except.noConfusion h
  | ok a => exact ⟨a, rfl, by simpa only [Except.map, Except.ok.injEq] using h⟩

theorem pure_ok {α : Type} {a b : α} (h : (pure a : Except Err α) = .ok b) : a = b := by
  simpa only [pure, Except.pure, Except.ok.injEq] using h

theorem throw_ok {α : Type} {e : Err} {b : α}
    (h : (throw e : Except Err α) = .ok b) : False :=
  Except.noConfusion h

theorem pure_ok3 {α β γ : Type} {a : α} {b : β} {c : γ} {a' : α} {b' : β} {c' : γ}
    (h : (pure (a, b, c) : Except Err (α × β × γ)) = .ok (a', b', c')) :
    a = a' ∧ b = b' ∧ c = c' := by
  have := pure_ok h
  simpa [Prod.ext_iff] using this

theorem pure_ok2 {α β : Type} {a : α} {b : β} {a' : α} {b' : β}
    (h : (pure (a, b) : Except Err (α × β)) = .ok (a', b')) :
    a = a' ∧ b = b' := by
  have := pure_ok h
  simpa [Prod.ext_iff] using this

@[simp] theorem fxBeq_refl (a : Fx) : a.beq a = true := by
  simp [Fx.beq]

@[simp] theorem pointBeq_refl (p : Point) : p.beq p = true := by
  simp [Point.beq]

@[simp] theorem sizeBeq_refl (s : Size) : s.beq s = true := by
  simp [Size.beq]

@[simp] theorem optPointBeq_self (o : Option Point) : optPointBeq o o = true := by
  cases o <;> simp [optPointBeq]

@[simp] theorem mergeWithChild_id (s c : ObjectState) :
    (s.mergeWithChild c).id = s.id := rfl

@[simp] theorem mergeWithChild_layoutArea (s c : ObjectState) :
    (s.mergeWithChild c).layoutArea = s.layoutArea := rfl

@[simp] theorem mergeWithChild_needsCompose (s c : ObjectState) :
    (s.mergeWithChild c).needsCompose = s.needsCompose := rfl

@[simp] theorem mergeWithChild_wantsCompose (s c : ObjectState) :
    (s.mergeWithChild c).wantsCompose = s.wantsCompose := rfl

@[simp] theorem mergeWithChild_needsLayout (s c : ObjectState) :
    (s.mergeWithChild c).needsLayout = (s.needsLayout || c.needsLayout) := rfl

@[simp] theorem mergeWithChild_childrenChanged (s c : ObjectState) :
    (s.mergeWithChild c).childrenChanged = (s.childrenChanged || c.childrenChanged) := rfl

theorem layoutPass_interaction {fuel : Nat} {t t' : ObjectTree} {log : List Nat}
    (h : layoutPass fuel t = .ok (t', log)) : t'.interaction = t.interaction := by
  unfold layoutPass at h
  obtain ⟨a, _, hf⟩ := bind_ok h
  obtain ⟨root', alog⟩ := a
  obtain ⟨h1, _⟩ := pure_ok2 hf
  simp [← h1]

theorem updatePass_interaction {fuel : Nat} {t t' : ObjectTree} {log : List Nat}
    (h : updatePass fuel t = .ok (t', log)) : t'.interaction = t.interaction := by
  unfold updatePass at h
  obtain ⟨a, _, hf⟩ := bind_ok h
  obtain ⟨root', alog⟩ := a
  obtain ⟨h1, _⟩ := pure_ok2 hf
  simp [← h1]

theorem composePass_interaction {fuel : Nat} {t : ObjectTree} {r : ObjectTree}
    (h : composePass fuel t = .ok r) : r.interaction = t.interaction := by
  unfold composePass at h
  obtain ⟨a, _, hf⟩ := bind_ok h
  have := pure_ok hf
  simp [← this]

/-! Claim theorems. -/

theorem runRenderActs_pure :
    ∀ {acts : List RenderAction} {st : ObjectState},
      pureActs acts → runRenderActs acts st = (st, emitsOf acts st) := by
  intro acts
  induction acts with
  | nil => intro st _; rfl
  | cons a acts ih =>
    intro st hp
    obtain ⟨f, rfl⟩ := hp a (List.mem_cons_self _ _)
    have htail : pureActs acts := fun x hx => hp x (List.mem_cons_of_mem _ hx)
    simp only [runRenderActs, ih htail, emitsOf, List.filterMap_cons]

theorem mergeWithChild_noop {s c : ObjectState}
    (h1 : c.needsLayout = true → s.needsLayout = true)
    (h2 : c.childrenChanged = true → s.childrenChanged = true) :
    s.mergeWithChild c = s := by
  have ha : (s.needsLayout || c.needsLayout) = s.needsLayout := by
    cases hcn : c.needsLayout
    · simp
    · simp [h1 hcn]
  have hb : (s.childrenChanged || c.childrenChanged) = s.childrenChanged := by
    cases hcc : c.childrenChanged
    · simp
    · simp [h2 hcc]
  unfold ObjectState.mergeWithChild
  rw [ha, hb]

theorem replaceChild_self :
    ∀ {ch : List ObjNode} {i : Nat} {c : ObjNode},
      findChild? ch i = some c → replaceChild ch i c = ch := by
  intro ch
  induction ch with
  | nil => intro i c h; simp [findChild?] at h
  | cons d ds ih =>
    intro i c h
    by_cases hd : (d.state.id == i) = true
    · simp only [findChild?, List.find?, hd, Option.some.injEq] at h
      subst h
      simp only [replaceChild, hd, if_true]
    · have hd' : (d.state.id == i) = false := Bool.eq_false_iff.mpr hd
      simp only [findChild?, List.find?, hd'] at h
      simp only [replaceChild, hd', Bool.false_eq_true, if_false]
      rw [ih h]

theorem findChild?_self_of_nodup :
    ∀ {ch : List ObjNode},
      (ch.map (fun c => c.state.id)).Nodup →
      ∀ {c : ObjNode}, c ∈ ch → findChild? ch c.state.id = some c := by
  intro ch
  induction ch with
  | nil => intro _ c h; cases h
  | cons d ds ih =>
    intro hnd c hc
    have hnd' : (∀ x ∈ ds, ¬x.state.id = d.state.id) ∧
        (ds.map (fun c => c.state.id)).Nodup := by simpa using hnd
    obtain ⟨hdnotin, hndtail⟩ := hnd'
    rcases List.mem_cons.mp hc with h | h
    · subst h
      simp [findChild?, List.find?]
    · have hne : (d.state.id == c.state.id) = false := by
        simp only [beq_eq_false_iff_ne, ne_eq]
        intro hh
        exact hdnotin c h hh.symm
      simp only [findChild?, List.find?, hne]
      exact ih hndtail h

theorem wfList_mem :
    ∀ {l : List ObjNode} {c : ObjNode}, wfList l → c ∈ l → wfNode c := by
  intro l
  induction l with
  | nil => intro c _ h; cases h
  | cons d ds ih =>
    intro c hw hc
    rcases List.mem_cons.mp hc with h | h
    · exact h ▸ hw.1
    · exact ih hw.2 h

theorem flagsClosedList_mem :
    ∀ {l : List ObjNode} {c : ObjNode}, flagsClosedList l → c ∈ l → flagsClosedNode c := by
  intro l
  induction l with
  | nil => intro c _ h; cases h
  | cons d ds ih =>
    intro c hw hc
    rcases List.mem_cons.mp hc with h | h
    · exact h ▸ hw.1
    · exact ih hw.2 h

theorem pureRenderList_mem :
    ∀ {l : List ObjNode} {c : ObjNode}, pureRenderList l → c ∈ l → pureRenderNode c := by
  intro l
  induction l with
  | nil => intro c _ h; cases h
  | cons d ds ih =>
    intro c hw hc
    rcases List.mem_cons.mp hc with h | h
    · exact h ▸ hw.1
    · exact ih hw.2 h

theorem renderChildrenIds_wf {rec : ObjNode → Except Err (ObjNode × List DrawCmd)} :
    ∀ {cs : List ObjNode} {ch : List ObjNode} {st : ObjectState} {out},
      (∀ c ∈ cs, findChild? ch c.state.id = some c) →
      (∀ c ∈ cs, ∀ rc, rec c = .ok rc → rc = (c, specRenderNode c)) →
      (∀ c ∈ cs, (c.state.needsLayout = true → st.needsLayout = true) ∧
        (c.state.childrenChanged = true → st.childrenChanged = true)) →
      renderChildrenIds rec (cs.map (fun c => c.state.id)) st ch = .ok out →
      out = (st, ch, specRenderList cs) := by
  intro cs
  induction cs with
  | nil =>
    intro ch st out _ _ _ h
    simp only [List.map_nil, renderChildrenIds] at h
    have := pure_ok h
    rw [← this]
    rfl
  | cons c cs ih =>
    intro ch st out hsub hrec hflags h
    simp only [List.map_cons, renderChildrenIds] at h
    rw [hsub c (List.mem_cons_self _ _)] at h
    obtain ⟨rc, hrc, h⟩ := bind_ok h
    obtain rfl : rc = (c, specRenderNode c) := hrec c (List.mem_cons_self _ _) rc hrc
    obtain ⟨rest, hrest, h⟩ := bind_ok h
    rw [mergeWithChild_noop (hflags c (List.mem_cons_self _ _)).1
      (hflags c (List.mem_cons_self _ _)).2] at hrest
    rw [replaceChild_self (hsub c (List.mem_cons_self _ _))] at hrest
    have hrest' := ih
      (fun x hx => hsub x (List.mem_cons_of_mem _ hx))
      (fun x hx => hrec x (List.mem_cons_of_mem _ hx))
      (fun x hx => hflags x (List.mem_cons_of_mem _ hx))
      hrest
    subst hrest'
    have := pure_ok h
    rw [← this]
    rfl

theorem renderNode_wf :
    ∀ {fuel : Nat} {n : ObjNode} {r : ObjNode × List DrawCmd},
      wfNode n → flagsClosedNode n → pureRenderNode n →
      renderNode fuel n = .ok r → r = (n, specRenderNode n) := by
  intro fuel
  induction fuel with
  | zero => intro n r _ _ _ h; exact absurd h throw_ok
  | succ fuel ih =>
    intro n r hwf hfl hpure h
    obtain ⟨obj, st, ch⟩ := n
    obtain ⟨hids, hnd, hwfch⟩ := hwf
    obtain ⟨hflmem, hflch⟩ := hfl
    obtain ⟨hpr, hpo, hpch⟩ := hpure
    simp only [renderNode, runRenderActs_pure hpr] at h
    rw [hids] at h
    obtain ⟨iter, hiter, h⟩ := bind_ok h
    have hiter' := renderChildrenIds_wf
      (fun c hc => findChild?_self_of_nodup hnd hc)
      (fun c hc rc hrc => ih (wfList_mem hwfch hc) (flagsClosedList_mem hflch hc)
        (pureRenderList_mem hpch hc) hrc)
      (fun c hc => hflmem c hc)
      hiter
    subst hiter'
    simp only [runRenderActs_pure hpo] at h
    have := pure_ok h
    rw [← this]
    simp [specRenderNode]

/-- C8 counterexample: the render pass can mutate node state — on
`exC8` (clean parent, child with needs-layout set) the parent's
needs-layout flag is true after the pass and false before, so the claim
"every node's state record is identical before and after the pass" fails
at this input. -/
theorem render_mutates_state_counterexample :
    (renderPass 2 exC8).map (fun p => p.1.root.state.needsLayout) = .ok true ∧
    exC8.root.state.needsLayout = false :=
  ⟨rfl, rfl⟩

/-- C8 (amended): the Render pass visits every node with no dirty-flag
gating, emitting each node's own content, then every declared child in
declared order, then the node's overlay content (the output equals the
spec-side `specRenderNode`); and the only node-state mutation is the
OR-merge of each child's needs-layout/children-changed flags into its
parent — on a well-formed tree whose flags are already upward-closed and
whose render programs only draw, the pass leaves every node's state
record identical. -/
theorem render_order_and_state (fuel : Nat) (t t' : ObjectTree) (cmds : List DrawCmd)
    (hwf : wfNode t.root) (hfl : flagsClosedNode t.root) (hpure : pureRenderNode t.root)
    (h : renderPass fuel t = .ok (t', cmds)) :
    t' = t ∧ cmds = specRenderNode t.root := by
  unfold renderPass at h
  obtain ⟨p, hp, h⟩ := bind_ok h
  obtain ⟨root', pcmds⟩ := p
  have hres := renderNode_wf hwf hfl hpure hp
  simp only [Prod.mk.injEq] at hres
  obtain ⟨h1, h2⟩ := hres
  subst h1; subst h2
  obtain ⟨h3, h4⟩ := pure_ok2 h
  subst h4
  refine ⟨?_, rfl⟩
  rw [← h3]

theorem exC8Good_wf : wfNode exC8Good.root := by
  show wfNode (.mk _ _ _)
  simp only [wfNode, wfList, exC8GoodChild]
  refine ⟨rfl, by simp, ⟨rfl, by simp, trivial⟩, trivial⟩

theorem exC8Good_flagsClosed : flagsClosedNode exC8Good.root := by
  show flagsClosedNode (.mk _ _ _)
  simp only [flagsClosedNode, flagsClosedList, exC8GoodChild]
  refine ⟨?_, ⟨?_, trivial⟩, trivial⟩
  · intro c hc
    rw [List.mem_singleton] at hc
    subst hc
    exact ⟨fun h => h, fun h => h⟩
  · intro c hc
    cases hc

theorem exC8Good_pure : pureRenderNode exC8Good.root := by
  show pureRenderNode (.mk _ _ _)
  simp only [pureRenderNode, pureRenderList, exC8GoodChild]
  refine ⟨?_, ?_, ⟨?_, ?_, trivial⟩, trivial⟩
  · intro a ha; cases ha
  · intro a ha; cases ha
  · intro a ha
    simp only [Obj.core] at ha
    rw [List.mem_singleton] at ha
    exact ⟨_, ha⟩
  · intro a ha; cases ha

/-- Witness for C8 (amended) on the well-formed two-node tree
`exC8Good`, whose child draws one quad. -/
theorem render_order_and_state_witness :
    wfNode exC8Good.root ∧ flagsClosedNode exC8Good.root ∧ pureRenderNode exC8Good.root ∧
    renderPass 2 exC8Good = .ok (exC8Good, [quadCmd]) ∧
    (exC8Good = exC8Good ∧ [quadCmd] = specRenderNode exC8Good.root) :=
  ⟨exC8Good_wf, exC8Good_flagsClosed, exC8Good_pure, rfl,
    render_order_and_state 2 exC8Good exC8Good [quadCmd]
      exC8Good_wf exC8Good_flagsClosed exC8Good_pure rfl⟩

mutual

theorem singlePassNode_inv (cb : EvCb) (tgt : Nat) (n : ObjNode) :
    ∀ {r : ObjNode × Option Nat × List Nat},
      singlePassNode cb tgt n = some r → r.2.2 = [tgt] := by
  intro r h
  obtain ⟨o, s, ch⟩ := n
  by_cases hid : s.id = tgt
  · simp only [singlePassNode, if_pos hid] at h
    rcases hcb : cb o s with ⟨o', s', eff⟩
    rw [hcb] at h
    simp only [Option.some.injEq] at h
    rw [← h, hid]
  · simp only [singlePassNode, if_neg hid] at h
    cases hm : singlePassList cb tgt ch with
    | none => rw [hm] at h; cases h
    | some q =>
      obtain ⟨ch', cst, cap, inv⟩ := q
      rw [hm] at h
      simp only [Option.some.injEq] at h
      have := singlePassList_inv cb tgt ch hm
      rw [← h]
      simpa using this

theorem singlePassList_inv (cb : EvCb) (tgt : Nat) (l : List ObjNode) :
    ∀ {r : List ObjNode × ObjectState × Option Nat × List Nat},
      singlePassList cb tgt l = some r → r.2.2.2 = [tgt] := by
  intro r h
  cases l with
  | nil => simp [singlePassList] at h
  | cons c cs =>
    simp only [singlePassList] at h
    cases hm : singlePassNode cb tgt c with
    | some q =>
      obtain ⟨c', cap, inv⟩ := q
      rw [hm] at h
      simp only [Option.some.injEq] at h
      have := singlePassNode_inv cb tgt c hm
      rw [← h]
      simpa using this
    | none =>
      rw [hm] at h
      cases hm2 : singlePassList cb tgt cs with
      | none => rw [hm2] at h; cases h
      | some q =>
        obtain ⟨cs', cst, cap, inv⟩ := q
        rw [hm2] at h
        simp only [Option.some.injEq] at h
        have := singlePassList_inv cb tgt cs hm2
        rw [← h]
        simpa using this

end

theorem singleEventPass_log {t : ObjectTree} {tgt : Option Nat} {cb : EvCb}
    {t' : ObjectTree} {inv : List Nat}
    (h : singleEventPass t tgt cb = .ok (t', inv)) : inv = tgt.toList := by
  cases tgt with
  | none =>
    simp only [singleEventPass] at h
    obtain ⟨_, h2⟩ := pure_ok2 h
    rw [← h2]
    rfl
  | some x =>
    simp only [singleEventPass] at h
    cases hm : singlePassNode cb x t.root with
    | none => rw [hm] at h; exact absurd h throw_ok
    | some q =>
      obtain ⟨qr, qc, qi⟩ := q
      rw [hm] at h
      obtain ⟨_, h2⟩ := pure_ok2 h
      rw [← h2]
      have := singlePassNode_inv cb x t.root hm
      simpa using this

theorem hoverNotifyPhase_log {t : ObjectTree} {prevObj nextObj : Option Nat}
    {t' : ObjectTree} {log : List (Nat × Bool)}
    (h : hoverNotifyPhase t prevObj nextObj = .ok (t', log)) :
    log = (if prevObj ≠ nextObj then
        prevObj.toList.map (fun i => (i, false)) ++
          nextObj.toList.map (fun i => (i, true))
      else []) := by
  unfold hoverNotifyPhase at h
  split at h
  · next hcond =>
    obtain ⟨q1, hs1, h⟩ := bind_ok h
    obtain ⟨t₃, inv₁⟩ := q1
    obtain ⟨q2, hs2, h⟩ := bind_ok h
    obtain ⟨t₄, inv₂⟩ := q2
    obtain ⟨_, h2⟩ := pure_ok2 h
    rw [if_pos hcond, ← h2, singleEventPass_log hs1, singleEventPass_log hs2]
  · next hcond =>
    obtain ⟨_, h2⟩ := pure_ok2 h
    rw [if_neg hcond, ← h2]

/-- C9: whenever the deepest hovered node changes during hover
maintenance, the `on_hover` invocation log of `update_pointer_pass`
consists of exactly one `(old, false)` entry followed by exactly one
`(new, true)` entry (each present only when that endpoint exists), and
no other node's `on_hover` callback runs; when the deepest hovered node
is unchanged, no `on_hover` callback runs at all. -/
theorem update_pointer_hover_pairs (fuel : Nat) (t t' : ObjectTree)
    (log : List (Nat × Bool)) (nxt : Option Nat)
    (hNext : nextHoveredObject fuel t = .ok nxt)
    (h : updatePointerPass fuel t = .ok (t', log)) :
    log = (if t.interaction.hoveredPath.head? ≠ nxt then
        (t.interaction.hoveredPath.head?).toList.map (fun i => (i, false)) ++
          nxt.toList.map (fun i => (i, true))
      else []) := by
  unfold updatePointerPass at h
  obtain ⟨a, ha, h⟩ := bind_ok h
  rw [hNext] at ha
  obtain rfl : nxt = a := by simpa [Except.ok.injEq] using ha
  unfold updatePointerPassTail at h
  obtain ⟨t₁, hflag, h⟩ := bind_ok h
  obtain ⟨p1, hnotify, h⟩ := bind_ok h
  obtain ⟨pt, plog⟩ := p1
  obtain ⟨cur, hcur, h⟩ := bind_ok h
  obtain ⟨_, hlog⟩ := pure_ok2 h
  subst hlog
  exact hoverNotifyPhase_log hnotify

/-- Witness for C9 on `exC9`: the pointer sits over node 2 while node 1
was the deepest hovered node, so the log is exactly
`[(1, false), (2, true)]`. -/
theorem update_pointer_hover_pairs_witness :
    nextHoveredObject 2 exC9 = .ok (some 2) ∧
    updatePointerPass 2 exC9 = .ok (exC9After, [(1, false), (2, true)]) ∧
    [((1 : Nat), false), ((2 : Nat), true)] =
      (if exC9.interaction.hoveredPath.head? ≠ some 2 then
        (exC9.interaction.hoveredPath.head?).toList.map (fun i => (i, false)) ++
          (some (2 : Nat)).toList.map (fun i => (i, true))
      else []) :=
  ⟨rfl, rfl,
    update_pointer_hover_pairs 2 exC9 exC9After [(1, false), (2, true)] (some 2) rfl rfl⟩

/-- C10: a `Move` pointer event whose position equals the currently
stored pointer position (including both absent) is a complete no-op:
the tree is returned unchanged and no pass runs. -/
theorem handle_move_same_position_noop (fuel : Nat) (t : ObjectTree) :
    handlePointerEvent fuel t (.move t.interaction.pointerPosition) = .ok (t, []) := by
  simp [handlePointerEvent, pure, Except.pure]

/-- C6: promoting a pending child descriptor inserts exactly one node
(appended to the store with default state), and promoting the same
descriptor again is a no-op because its builder has been taken. -/
theorem updateChild_idempotent (ch : List ObjNode) (c : ChildObject) (b : ObjectBuilder)
    (hpending : c.inner = .new b) :
    (updateChild ch c).1 = ch ++ [.mk b.object (ObjectState.new b.id) []] ∧
    updateChild (updateChild ch c).1 (updateChild ch c).2 =
      ((updateChild ch c).1, (updateChild ch c).2) := by
  cases c with
  | mk i inn =>
    cases inn with
    | existing => simp [ChildObject.inner] at hpending
    | new b' =>
      simp only [ChildObject.inner, ChildObjectInner.new.injEq] at hpending
      subst hpending
      simp [updateChild, ChildObject.takeInner]

/-- Witness for C6 at the concrete descriptor `exPendingChild`. -/
theorem updateChild_idempotent_witness :
    exPendingChild.inner = .new (.mk 7 leafObj) ∧
    (updateChild [] exPendingChild).1 = [] ++ [.mk leafObj (ObjectState.new 7) []] ∧
    updateChild (updateChild [] exPendingChild).1 (updateChild [] exPendingChild).2 =
      ((updateChild [] exPendingChild).1, (updateChild [] exPendingChild).2) :=
  ⟨rfl, (updateChild_idempotent [] exPendingChild (.mk 7 leafObj) rfl).1,
    (updateChild_idempotent [] exPendingChild (.mk 7 leafObj) rfl).2⟩

/-- C4 (code bug): with a stale pointer-capture target (id 99 set but
absent from the store), pointer routing (`get_pointer_target`) does
treat the absence as a normal no-value state and falls back — but the
capture is never cleared, and `update_pointer_pass` resolves the cursor
icon through the raw capture target and panics on its `expect`, instead
of completing and falling back as the claim states. -/
theorem stale_capture_cursor_fatal :
    exC4.interaction.pointerCaptureTarget = some 99 ∧
    findInNode exC4.root 99 = none ∧
    getPointerTarget 1 exC4 = .ok none ∧
    updatePointerPass 1 exC4 = .error .fatal :=
  ⟨rfl, rfl, rfl, rfl⟩

/-- C5: `resize` with the current view size is a complete no-op (no
pass runs); with a different size it stores the new size and runs
exactly the Layout, Update and Compose passes, in that order. -/
theorem resize_noop_or_three_passes (fuel : Nat) (t : ObjectTree) (size : Size) :
    resize fuel t t.interaction.viewSize = .ok (t, []) ∧
    (size.beq t.interaction.viewSize = false →
      ∀ t' trace, resize fuel t size = .ok (t', trace) →
        trace = [.layout, .update, .compose] ∧
        t'.interaction.viewSize = size ∧
        t'.interaction.pointerPosition = t.interaction.pointerPosition ∧
        t'.interaction.pointerCaptureTarget = t.interaction.pointerCaptureTarget) := by
  constructor
  · simp [resize, pure, Except.pure]
  · intro hne t' trace h
    unfold resize at h
    rw [hne] at h
    simp only [Bool.false_eq_true, if_false] at h
    obtain ⟨p₁, hl, h⟩ := bind_ok h
    obtain ⟨t₁, l₁⟩ := p₁
    obtain ⟨p₂, hu, h⟩ := bind_ok h
    obtain ⟨t₂, l₂⟩ := p₂
    obtain ⟨t₃, hc, h⟩ := bind_ok h
    obtain ⟨he, htr⟩ := pure_ok2 h
    subst he; subst htr
    have h₁ := layoutPass_interaction hl
    have h₂ := updatePass_interaction hu
    have h₃ := composePass_interaction hc
    simp only [] at h₂ h₃
    refine ⟨rfl, ?_, ?_, ?_⟩ <;> rw [h₃, h₂, h₁]

/-- Witness for C5 at the concrete leaf tree resized from 0×0 to
1×1. -/
theorem resize_noop_or_three_passes_witness :
    Size.beq ⟨1, 1⟩ exLeafTree.interaction.viewSize = false ∧
    resize 1 exLeafTree ⟨1, 1⟩ = .ok (exC5After, [.layout, .update, .compose]) ∧
    ([PassTag.layout, .update, .compose] = [PassTag.layout, .update, .compose] ∧
      exC5After.interaction.viewSize = ⟨1, 1⟩ ∧
      exC5After.interaction.pointerPosition = exLeafTree.interaction.pointerPosition ∧
      exC5After.interaction.pointerCaptureTarget = exLeafTree.interaction.pointerCaptureTarget) :=
  ⟨rfl, rfl,
    (resize_noop_or_three_passes 1 exLeafTree ⟨1, 1⟩).2 rfl exC5After
      [PassTag.layout, .update, .compose] rfl⟩

theorem runLayoutActs_stable {rec : ObjNode → Size → Except Err (ObjNode × List Nat)} :
    ∀ {acts : List LayoutAction} {st ch st' ch' log},
      runLayoutActs rec acts st ch = .ok (st', ch', log) →
      st'.layoutArea = st.layoutArea ∧ st'.id = st.id := by
  intro acts
  induction acts with
  | nil =>
    intro st ch st' ch' log h
    simp only [runLayoutActs] at h
    obtain ⟨h1, h2, h3⟩ := pure_ok3 h
    subst h1
    exact ⟨rfl, rfl⟩
  | cons a acts ih =>
    intro st ch st' ch' log h
    cases a with
    | doLayout cid csize =>
      simp only [runLayoutActs] at h
      cases hfc : findChild? ch cid with
      | none => rw [hfc] at h; exact absurd h throw_ok
      | some c =>
        rw [hfc] at h
        obtain ⟨pc, hrec, h⟩ := bind_ok h
        obtain ⟨c', clog⟩ := pc
        obtain ⟨pr, hrest, h⟩ := bind_ok h
        obtain ⟨st'', ch'', log'⟩ := pr
        obtain ⟨h1, h2, h3⟩ := pure_ok3 h
        subst h1
        have := ih hrest
        simpa using this
    | placeChild cid pos =>
      simp only [runLayoutActs] at h
      cases hfc : findChild? ch cid with
      | none => rw [hfc] at h; exact absurd h throw_ok
      | some c =>
        rw [hfc] at h
        exact ih h
    | requestLayout =>
      simp only [runLayoutActs] at h
      have := ih h
      simpa using this
    | requestCompose =>
      simp only [runLayoutActs] at h
      have := ih h
      simpa using this

theorem findChild?_mem {ch : List ObjNode} {i : Nat} {c : ObjNode}
    (h : findChild? ch i = some c) : c ∈ ch :=
  List.mem_of_find?_eq_some h

theorem findChild?_id {ch : List ObjNode} {i : Nat} {c : ObjNode}
    (h : findChild? ch i = some c) : c.state.id = i := by
  simpa using List.find?_some h

theorem subtreeIds_mem_of_child {x : Nat} :
    ∀ {l : List ObjNode} {c : ObjNode}, c ∈ l → x ∈ subtreeIds c → x ∈ subtreeIdsList l := by
  intro l
  induction l with
  | nil => intro c h; cases h
  | cons d ds ih =>
    intro c hmem hx
    rcases List.mem_cons.mp hmem with h | h
    · subst h
      simp [subtreeIdsList, List.mem_append]
      exact Or.inl hx
    · simp [subtreeIdsList, List.mem_append]
      exact Or.inr (ih h hx)

theorem findPointerChildren_mem {rec : ObjNode → Except Err (Option Nat)}
    (hrec : ∀ c r', rec c = .ok (some r') → r' ∈ subtreeIds c) :
    ∀ {ids : List Nat} {ch : List ObjNode} {r : Nat},
      findPointerChildren rec ids ch = .ok (some r) → ∃ c, c ∈ ch ∧ r ∈ subtreeIds c := by
  intro ids
  induction ids with
  | nil =>
    intro ch r h
    simp only [findPointerChildren] at h
    exact absurd (pure_ok h) (by simp)
  | cons i ids ih =>
    intro ch r h
    simp only [findPointerChildren] at h
    cases hfc : findChild? ch i with
    | none => rw [hfc] at h; exact absurd h throw_ok
    | some c =>
      rw [hfc] at h
      obtain ⟨o, hreco, h⟩ := bind_ok h
      cases o with
      | some r' =>
        have := pure_ok h
        obtain rfl : r' = r := by simpa using this
        exact ⟨c, findChild?_mem hfc, hrec c _ hreco⟩
      | none => exact ih h

theorem findPointerTarget_mem :
    ∀ {fuel : Nat} {n : ObjNode} {pos : Point} {r : Nat},
      findPointerTarget fuel n pos = .ok (some r) → r ∈ subtreeIds n := by
  intro fuel
  induction fuel with
  | zero => intro n pos r h; exact absurd h throw_ok
  | succ fuel ih =>
    intro n pos r h
    obtain ⟨obj, st, ch⟩ := n
    simp only [findPointerTarget] at h
    by_cases hc : st.area.contains pos
    · rw [hc] at h
      simp only [Bool.not_true, Bool.false_eq_true, if_false] at h
      obtain ⟨o, ho, h⟩ := bind_ok h
      cases o with
      | some r' =>
        have := pure_ok h
        obtain rfl : r' = r := by simpa using this
        obtain ⟨c, hcmem, hrsub⟩ :=
          findPointerChildren_mem (fun c r' hr => ih hr) ho
        simp only [subtreeIds, List.mem_cons]
        exact Or.inr (subtreeIds_mem_of_child hcmem hrsub)
      | none =>
        by_cases hacc : obj.core.accepts
        · rw [hacc] at h
          simp only [if_true] at h
          have := pure_ok h
          obtain rfl : st.id = r := by simpa using this
          simp [subtreeIds]
        · rw [Bool.eq_false_iff.mpr hacc] at h
          simp only [Bool.false_eq_true, if_false] at h
          exact absurd (pure_ok h) (by simp)
    · rw [Bool.eq_false_iff.mpr hc] at h
      simp only [Bool.not_false, if_true] at h
      exact absurd (pure_ok h) (by simp)

/-- C3: hit-testing visits a node only when the position lies inside its
global bounding area (outside, the whole subtree yields no hit), returns
only ids stored in the subtree, returns the node itself only when no
descendant claimed the hit and the node accepts pointer events, and for
two siblings tested through their parent, the later-declared sibling B
wins whenever B's subtree claims the hit — in particular a position
inside both overlapping siblings resolves to B, never A. -/
theorem find_pointer_target_spec :
    (∀ (fuel : Nat) (n : ObjNode) (pos : Point),
      n.state.area.contains pos = false →
      findPointerTarget (fuel + 1) n pos = .ok none) ∧
    (∀ (fuel : Nat) (n : ObjNode) (pos : Point) (r : Nat),
      findPointerTarget fuel n pos = .ok (some r) → r ∈ subtreeIds n) ∧
    (∀ (fuel : Nat) (obj : Obj) (st : ObjectState) (ch : List ObjNode) (pos : Point),
      findPointerTarget (fuel + 1) (.mk obj st ch) pos = .ok (some st.id) →
      st.id ∉ subtreeIdsList ch →
      obj.core.accepts = true ∧ st.area.contains pos = true) ∧
    (∀ (fuel : Nat) (pobj : Obj) (pst : ObjectState) (a b : ObjNode) (pos : Point) (r : Nat),
      pobj.core.childrenIds = [a.state.id, b.state.id] →
      (a.state.id == b.state.id) = false →
      pst.area.contains pos = true →
      findPointerTarget fuel b pos = .ok (some r) →
      findPointerTarget (fuel + 1) (.mk pobj pst [a, b]) pos = .ok (some r)) := by
  refine ⟨?_, ?_, ?_, ?_⟩
  · intro fuel n pos h
    obtain ⟨obj, st, ch⟩ := n
    simp only [ObjNode.state] at h
    simp [findPointerTarget, h, pure, Except.pure]
  · intro fuel n pos r h
    exact findPointerTarget_mem h
  · intro fuel obj st ch pos h hnot
    simp only [findPointerTarget] at h
    by_cases hc : st.area.contains pos
    · rw [hc] at h
      simp only [Bool.not_true, Bool.false_eq_true, if_false] at h
      obtain ⟨o, ho, h⟩ := bind_ok h
      cases o with
      | some r' =>
        have := pure_ok h
        obtain rfl : r' = st.id := by simpa using this
        obtain ⟨c, hcmem, hrsub⟩ :=
          findPointerChildren_mem (fun c r' hr => findPointerTarget_mem hr) ho
        exact absurd (subtreeIds_mem_of_child hcmem hrsub) hnot
      | none =>
        by_cases hacc : obj.core.accepts
        · exact ⟨hacc, hc⟩
        · rw [Bool.eq_false_iff.mpr hacc] at h
          simp only [Bool.false_eq_true, if_false] at h
          exact absurd (pure_ok h) (by simp)
    · rw [Bool.eq_false_iff.mpr hc] at h
      simp only [Bool.not_false, if_true] at h
      exact absurd (pure_ok h) (by simp)
  · intro fuel pobj pst a b pos r hids hne hc hb
    simp only [findPointerTarget, hc, Bool.not_true, Bool.false_eq_true,
      if_false, hids]
    simp only [List.reverse_cons, List.reverse_nil, List.nil_append, List.cons_append,
      findPointerChildren, findChild?, List.find?]
    rw [hne]
    simp only [beq_self_eq_true]
    rw [hb]
    simp [Bind.bind, Except.bind, pure, Except.pure]

/-- Witness for C3: the two-sibling tree `exC3Parent` (siblings with ids
1 and 2, position `posC9` inside the root, the parent area, and sibling
2) resolves to sibling 2; and a zero-area leaf yields no hit. -/
theorem find_pointer_target_spec_witness :
    ((ObjectState.new 0).area.contains posC9 = false ∧
      findPointerTarget 1 (.mk leafObj (ObjectState.new 0) []) posC9 = .ok none) ∧
    (exC3Parent.object.core.childrenIds = [exC9A.state.id, exC9B.state.id] ∧
      (exC9A.state.id == exC9B.state.id) = false ∧
      exC3Parent.state.area.contains posC9 = true ∧
      findPointerTarget 1 exC9B posC9 = .ok (some 2) ∧
      findPointerTarget 2 (.mk exC3Parent.object exC3Parent.state [exC9A, exC9B]) posC9 =
        .ok (some 2)) :=
  ⟨⟨rfl, find_pointer_target_spec.1 0 (.mk leafObj (ObjectState.new 0) []) posC9 rfl⟩,
    rfl, rfl, rfl, rfl,
    find_pointer_target_spec.2.2.2 1 exC3Parent.object exC3Parent.state exC9A exC9B posC9 2
      rfl rfl rfl rfl⟩

/-- C7: a node receiving layout stores the size constraint rounded to
whole device units, `place_child` stores the child position rounded, and
after the layout callback both the needs-compose and wants-compose flags
are set. -/
theorem layout_rounds_and_sets_compose_flags :
    (∀ (fuel : Nat) (obj : Obj) (st : ObjectState) (ch : List ObjNode)
        (size : Size) (n' : ObjNode) (log : List Nat),
      st.needsLayout = true →
      layoutNode (fuel + 1) (.mk obj st ch) size = .ok (n', log) →
      n'.state.layoutArea.size = size.round ∧
      n'.state.needsCompose = true ∧ n'.state.wantsCompose = true) ∧
    (∀ (st : ObjectState) (pos : Point),
      (placeObject st pos).layoutArea.position = pos.round) := by
  constructor
  · intro fuel obj st ch size n' log hNL h
    simp only [layoutNode, hNL, Bool.not_true, Bool.false_eq_true, if_false] at h
    obtain ⟨pr, hacts, h⟩ := bind_ok h
    obtain ⟨st₃, ch', log'⟩ := pr
    obtain ⟨h1, h2⟩ := pure_ok2 h
    subst h1
    have hst := runLayoutActs_stable hacts
    simp [ObjNode.state, hst.1]
  · intro st pos
    rfl

theorem runUpdateCb_id (obj : Obj) (st : ObjectState) (ch : List ObjNode) :
    (runUpdateChildrenCallback obj st ch).2.1.id = st.id := by
  unfold runUpdateChildrenCallback
  split <;> split <;> rfl

theorem runUpdateCb_childrenChanged (obj : Obj) (st : ObjectState) (ch : List ObjNode) :
    (runUpdateChildrenCallback obj st ch).2.1.childrenChanged = st.childrenChanged := by
  unfold runUpdateChildrenCallback
  split <;> split <;> rfl

theorem runUpdateCb_needsLayout (obj : Obj) (st : ObjectState) (ch : List ObjNode) :
    (runUpdateChildrenCallback obj st ch).2.1.needsLayout =
      (st.needsLayout || obj.core.updateRequestLayout) := by
  unfold runUpdateChildrenCallback
  rcases hrl : obj.core.updateRequestLayout <;>
    rcases hrc : obj.core.updateRequestCompose <;>
      simp [hrl, hrc]

theorem runUpdateCb_core (obj : Obj) (st : ObjectState) (ch : List ObjNode) :
    (runUpdateChildrenCallback obj st ch).1.core = obj.core := by
  unfold runUpdateChildrenCallback
  split <;> split <;> rfl

theorem updateChildrenIds_id {rec : ObjNode → Except Err (ObjNode × List Nat)} :
    ∀ {ids : List Nat} {st ch st' ch' log},
      updateChildrenIds rec ids st ch = .ok (st', ch', log) → st'.id = st.id := by
  intro ids
  induction ids with
  | nil =>
    intro st ch st' ch' log h
    simp only [updateChildrenIds] at h
    obtain ⟨h1, _, _⟩ := pure_ok3 h
    rw [← h1]
  | cons i ids ih =>
    intro st ch st' ch' log h
    simp only [updateChildrenIds] at h
    cases hfc : findChild? ch i with
    | none => rw [hfc] at h; exact absurd h throw_ok
    | some c =>
      rw [hfc] at h
      obtain ⟨pc, _, h⟩ := bind_ok h
      obtain ⟨c', clog⟩ := pc
      obtain ⟨pr, hrest, h⟩ := bind_ok h
      obtain ⟨st'', ch'', log'⟩ := pr
      obtain ⟨h1, h2, _⟩ := pure_ok3 h
      subst h1; subst h2
      have := ih hrest
      simpa using this

theorem updateNode_id :
    ∀ {fuel : Nat} {n : ObjNode} {r : ObjNode × List Nat},
      updateNode fuel n = .ok r → r.1.state.id = n.state.id := by
  intro fuel n r h
  cases fuel with
  | zero => exact absurd h throw_ok
  | succ fuel =>
    obtain ⟨obj, st, ch⟩ := n
    simp only [updateNode] at h
    by_cases hcc : st.childrenChanged
    · rw [hcc] at h
      simp only [Bool.not_true, Bool.false_eq_true, if_false] at h
      obtain ⟨a, ha, hg⟩ := map_ok h
      rw [← hg]
      simp only [ObjNode.state]
      have h1 := updateChildrenIds_id ha
      rw [h1, runUpdateCb_id]
    · rw [Bool.eq_false_iff.mpr hcc] at h
      simp only [Bool.not_false, if_true] at h
      have := pure_ok h
      rw [← this]

theorem findChild?_replaceChild_self :
    ∀ {ch : List ObjNode} {i : Nat} {c c' : ObjNode},
      findChild? ch i = some c → c'.state.id = i →
      findChild? (replaceChild ch i c') i = some c' := by
  intro ch
  induction ch with
  | nil => intro i c c' h _; simp [findChild?] at h
  | cons d ds ih =>
    intro i c c' h hc'
    by_cases hd : (d.state.id == i) = true
    · simp only [replaceChild, hd, if_true, findChild?, List.find?]
      have : (c'.state.id == i) = true := by simpa [beq_iff_eq] using hc'
      rw [this]
    · have hd' : (d.state.id == i) = false := Bool.eq_false_iff.mpr hd
      simp only [findChild?, List.find?, hd'] at h
      simp only [replaceChild, hd', Bool.false_eq_true, if_false, findChild?, List.find?, hd']
      exact ih h hc'

theorem findChild?_replaceChild_other :
    ∀ {ch : List ObjNode} {i : Nat} {c' : ObjNode} {j : Nat},
      c'.state.id = i → j ≠ i →
      findChild? (replaceChild ch i c') j = findChild? ch j := by
  intro ch
  induction ch with
  | nil => intro i c' j _ _; rfl
  | cons d ds ih =>
    intro i c' j hc' hji
    by_cases hd : (d.state.id == i) = true
    · have hdi : d.state.id = i := by simpa [beq_iff_eq] using hd
      have hdj : (d.state.id == j) = false := by
        simp [beq_iff_eq, hdi]
        exact fun hh => hji hh.symm
      have hcj : (c'.state.id == j) = false := by
        simp [beq_iff_eq, hc']
        exact fun hh => hji hh.symm
      simp only [replaceChild, hd, if_true, findChild?, List.find?, hcj, hdj]
    · have hd' : (d.state.id == i) = false := Bool.eq_false_iff.mpr hd
      simp only [replaceChild, hd', Bool.false_eq_true, if_false, findChild?, List.find?]
      by_cases hdj : (d.state.id == j) = true
      · rw [hdj]
      · rw [Bool.eq_false_iff.mpr hdj]
        exact ih hc' hji

theorem updateChildrenIds_spec {rec : ObjNode → Except Err (ObjNode × List Nat)}
    (hrecid : ∀ c r, rec c = .ok r → r.1.state.id = c.state.id) :
    ∀ {ids : List Nat} {st ch st' ch' log},
      ids.Nodup →
      updateChildrenIds rec ids st ch = .ok (st', ch', log) →
      (∀ j, j ∉ ids → findChild? ch' j = findChild? ch j) ∧
      (∀ i ∈ ids, (findChild? ch' i).isSome) ∧
      st'.needsLayout = (st.needsLayout ||
        ids.any (fun i =>
          ((findChild? ch' i).map (fun c => c.state.needsLayout)).getD false)) ∧
      st'.childrenChanged = (st.childrenChanged ||
        ids.any (fun i =>
          ((findChild? ch' i).map (fun c => c.state.childrenChanged)).getD false)) := by
  intro ids
  induction ids with
  | nil =>
    intro st ch st' ch' log _ h
    simp only [updateChildrenIds] at h
    obtain ⟨h1, h2, _⟩ := pure_ok3 h
    subst h1; subst h2
    simp
  | cons i ids ih =>
    intro st ch st' ch' log hnd h
    obtain ⟨hinotin, hndtail⟩ := List.nodup_cons.mp hnd
    simp only [updateChildrenIds] at h
    cases hfc : findChild? ch i with
    | none => rw [hfc] at h; exact absurd h throw_ok
    | some c =>
      rw [hfc] at h
      obtain ⟨pc, hrecc, h⟩ := bind_ok h
      obtain ⟨c', clog⟩ := pc
      obtain ⟨pr, hrest, h⟩ := bind_ok h
      obtain ⟨st'', ch'', log'⟩ := pr
      obtain ⟨h1, h2, _⟩ := pure_ok3 h
      subst h1; subst h2
      have hc'id : c'.state.id = i := by
        rw [hrecid c (c', clog) hrecc]
        exact findChild?_id hfc
      obtain ⟨ihframe, ihsome, ihnl, ihcc⟩ := ih hndtail hrest
      have hchi : findChild? ch'' i = some c' := by
        rw [ihframe i hinotin]
        exact findChild?_replaceChild_self hfc hc'id
      refine ⟨?_, ?_, ?_, ?_⟩
      · intro j hj
        have hji : j ≠ i := fun hh => hj (hh ▸ List.mem_cons_self _ _)
        have hjids : j ∉ ids := fun hh => hj (List.mem_cons_of_mem _ hh)
        rw [ihframe j hjids]
        exact findChild?_replaceChild_other hc'id hji
      · intro x hx
        rcases List.mem_cons.mp hx with hh | hh
        · subst hh; rw [hchi]; rfl
        · exact ihsome x hh
      · rw [ihnl]
        simp only [List.any_cons, hchi, mergeWithChild_needsLayout]
        rw [Bool.or_assoc]
        rfl
      · rw [ihcc]
        simp only [List.any_cons, hchi, mergeWithChild_childrenChanged]
        rw [Bool.or_assoc]
        rfl

/-- C1: the Update pass skips a subtree whose children-changed flag is
clear, returning it untouched with no reconciliation callback run
beneath it; on a node whose flag is set it runs the node's
`update_children` callback first (head of the invocation log), recurses
into every declared child id (all present afterwards), and the node's
final needs-layout flag is the OR of its own (after the callback) with
every declared child's, while its final children-changed flag — cleared
before recursing — is exactly the OR of the declared children's. -/
theorem update_pass_gating_and_merge (fuel : Nat) (obj : Obj) (st : ObjectState)
    (ch : List ObjNode) :
    (st.childrenChanged = false →
      updateNode (fuel + 1) (.mk obj st ch) = .ok (.mk obj st ch, [])) ∧
    (st.childrenChanged = true →
      obj.core.childrenIds.Nodup →
      ∀ n' log, updateNode (fuel + 1) (.mk obj st ch) = .ok (n', log) →
        log.head? = some st.id ∧
        (∀ i ∈ obj.core.childrenIds, (findChild? n'.children i).isSome) ∧
        n'.state.needsLayout = ((st.needsLayout || obj.core.updateRequestLayout) ||
          obj.core.childrenIds.any (fun i =>
            ((findChild? n'.children i).map (fun c => c.state.needsLayout)).getD false)) ∧
        n'.state.childrenChanged =
          obj.core.childrenIds.any (fun i =>
            ((findChild? n'.children i).map (fun c => c.state.childrenChanged)).getD false)) := by
  constructor
  · intro hcc
    simp [updateNode, hcc, pure, Except.pure]
  · intro hcc hnd n' log h
    simp only [updateNode, hcc, Bool.not_true, Bool.false_eq_true, if_false] at h
    obtain ⟨a, ha, hg⟩ := map_ok h
    obtain ⟨st'', ch'', clog⟩ := a
    simp only [Prod.mk.injEq] at hg
    obtain ⟨hn, hlog⟩ := hg
    subst hn; subst hlog
    have hcore := runUpdateCb_core obj { st with childrenChanged := false } ch
    rw [hcore] at ha
    obtain ⟨hframe, hsome, hnl, hccfin⟩ :=
      updateChildrenIds_spec (fun c r hr => updateNode_id hr) hnd ha
    simp only [ObjNode.state, ObjNode.children, List.head?]
    refine ⟨by trivial, hsome, ?_, ?_⟩
    · rw [hnl, runUpdateCb_needsLayout]
      rfl
    · rw [hccfin, runUpdateCb_childrenChanged]
      rfl

/-- Witness for C1 at `exC1Node` (children-changed set, one declared
child, id 5, created from a pending descriptor during the pass), plus the
skip case on the updated result (whose flag is clear). -/
theorem update_pass_gating_witness :
    (ObjectState.new 0).childrenChanged = true ∧
    exC1Node.object.core.childrenIds.Nodup ∧
    updateNode 2 exC1Node = .ok (exC1After, [0, 5]) ∧
    (([(0 : Nat), 5].head? = some (ObjectState.new 0).id) ∧
      (∀ i ∈ exC1Node.object.core.childrenIds, (findChild? exC1After.children i).isSome) ∧
      exC1After.state.needsLayout =
        (((ObjectState.new 0).needsLayout || exC1Node.object.core.updateRequestLayout) ||
          exC1Node.object.core.childrenIds.any (fun i =>
            ((findChild? exC1After.children i).map (fun c => c.state.needsLayout)).getD false)) ∧
      exC1After.state.childrenChanged =
        exC1Node.object.core.childrenIds.any (fun i =>
          ((findChild? exC1After.children i).map
            (fun c => c.state.childrenChanged)).getD false)) ∧
    exC1After.state.childrenChanged = false ∧
    updateNode 1 exC1After = .ok (exC1After, []) :=
  ⟨rfl, by decide, rfl,
    (update_pass_gating_and_merge 1 exC1Node.object exC1Node.state exC1Node.children).2
      rfl (by decide) exC1After [0, 5] rfl,
    rfl,
    (update_pass_gating_and_merge 0 exC1After.object exC1After.state
      exC1After.children).1 rfl⟩

theorem noReqList_iff : ∀ {l : List ObjNode}, noReqList l ↔ ∀ c ∈ l, noReqNode c := by
  intro l
  induction l with
  | nil => simp [noReqList]
  | cons d ds ih => simp [noReqList, ih, List.forall_mem_cons]

theorem replaceChild_mem :
    ∀ {ch : List ObjNode} {i : Nat} {c' x : ObjNode},
      x ∈ replaceChild ch i c' → x = c' ∨ x ∈ ch := by
  intro ch
  induction ch with
  | nil => intro i c' x h; simp [replaceChild] at h
  | cons d ds ih =>
    intro i c' x h
    simp only [replaceChild] at h
    split at h
    · rcases List.mem_cons.mp h with h | h
      · exact Or.inl h
      · exact Or.inr (List.mem_cons_of_mem _ h)
    · rcases List.mem_cons.mp h with h | h
      · exact Or.inr (h ▸ List.mem_cons_self _ _)
      · rcases ih h with h | h
        · exact Or.inl h
        · exact Or.inr (List.mem_cons_of_mem _ h)

theorem noReqNode_state_irrelevant {o : Obj} {s s' : ObjectState} {cs : List ObjNode}
    (h : noReqNode (.mk o s cs)) : noReqNode (.mk o s' cs) := by
  simpa [noReqNode] using h

theorem runLayoutActs_noReq {rec : ObjNode → Size → Except Err (ObjNode × List Nat)}
    (hrec : ∀ c sz r, noReqNode c → rec c sz = .ok r →
      r.1.state.needsLayout = false ∧ noReqNode r.1) :
    ∀ {acts : List LayoutAction} {st ch st' ch' log},
      (∀ a ∈ acts, a ≠ LayoutAction.requestLayout) →
      noReqList ch →
      runLayoutActs rec acts st ch = .ok (st', ch', log) →
      st'.needsLayout = st.needsLayout ∧ noReqList ch' := by
  intro acts
  induction acts with
  | nil =>
    intro st ch st' ch' log _ hch h
    simp only [runLayoutActs] at h
    obtain ⟨h1, h2, _⟩ := pure_ok3 h
    subst h1; subst h2
    exact ⟨rfl, hch⟩
  | cons a acts ih =>
    intro st ch st' ch' log hacts hch h
    have hactsTail : ∀ x ∈ acts, x ≠ LayoutAction.requestLayout :=
      fun x hx => hacts x (List.mem_cons_of_mem _ hx)
    cases a with
    | doLayout cid csize =>
      simp only [runLayoutActs] at h
      cases hfc : findChild? ch cid with
      | none => rw [hfc] at h; exact absurd h throw_ok
      | some c =>
        rw [hfc] at h
        obtain ⟨pc, hrecc, h⟩ := bind_ok h
        obtain ⟨c', clog⟩ := pc
        obtain ⟨pr, hrest, h⟩ := bind_ok h
        obtain ⟨st'', ch'', log'⟩ := pr
        obtain ⟨h1, h2, _⟩ := pure_ok3 h
        subst h1; subst h2
        have hcnr : noReqNode c := noReqList_iff.mp hch c (findChild?_mem hfc)
        obtain ⟨hc'nl, hc'nr⟩ := hrec c csize (c', clog) hcnr hrecc
        have hch' : noReqList (replaceChild ch cid c') := by
          rw [noReqList_iff]
          intro x hx
          rcases replaceChild_mem hx with h | h
          · exact h ▸ hc'nr
          · exact noReqList_iff.mp hch x h
        have := ih hactsTail hch' hrest
        simpa [hc'nl] using this
    | placeChild cid pos =>
      simp only [runLayoutActs] at h
      cases hfc : findChild? ch cid with
      | none => rw [hfc] at h; exact absurd h throw_ok
      | some c =>
        rw [hfc] at h
        have hcnr : noReqNode c := noReqList_iff.mp hch c (findChild?_mem hfc)
        have hrepl : noReqNode (.mk c.object (placeObject c.state pos) c.children) := by
          obtain ⟨co, cs, cc⟩ := c
          exact noReqNode_state_irrelevant hcnr
        have hch' : noReqList (replaceChild ch cid
            (.mk c.object (placeObject c.state pos) c.children)) := by
          rw [noReqList_iff]
          intro x hx
          rcases replaceChild_mem hx with h | h
          · exact h ▸ hrepl
          · exact noReqList_iff.mp hch x h
        exact ih hactsTail hch' h
    | requestLayout =>
      exact absurd rfl (hacts _ (List.mem_cons_self _ _))
    | requestCompose =>
      simp only [runLayoutActs] at h
      have := ih hactsTail hch h
      simpa using this

theorem layoutNode_noReq :
    ∀ {fuel : Nat} {n : ObjNode} {size : Size} {r : ObjNode × List Nat},
      noReqNode n → layoutNode fuel n size = .ok r →
      r.1.state.needsLayout = false ∧ noReqNode r.1 := by
  intro fuel
  induction fuel with
  | zero => intro n size r _ h; exact absurd h throw_ok
  | succ fuel ih =>
    intro n size r hnr h
    obtain ⟨obj, st, ch⟩ := n
    simp only [layoutNode] at h
    by_cases hnl : st.needsLayout
    · rw [hnl] at h
      simp only [Bool.not_true, Bool.false_eq_true, if_false] at h
      obtain ⟨pr, hacts, h⟩ := bind_ok h
      obtain ⟨st₃, ch', log'⟩ := pr
      obtain ⟨h1, _⟩ := pure_ok2 h
      obtain ⟨hprog, hchnr⟩ := hnr
      have hactsOk : ∀ a ∈ obj.core.layoutProg size.round, a ≠ LayoutAction.requestLayout :=
        fun a ha heq => hprog size.round (heq ▸ ha)
      have hres := runLayoutActs_noReq
        (fun c sz cr hc hcr => ih hc hcr) hactsOk hchnr hacts
      rw [← h1]
      refine ⟨by simpa using hres.1, ?_⟩
      exact ⟨hprog, hres.2⟩
    · rw [Bool.eq_false_iff.mpr hnl] at h
      simp only [Bool.not_false, if_true] at h
      obtain ⟨h1, _⟩ := pure_ok2 h
      rw [← h1]
      exact ⟨Bool.eq_false_iff.mpr hnl, hnr⟩

/-- C2: after a successful Layout pass over a tree whose layout
callbacks never re-request layout, the root's needs-layout flag is
clear, so a second Layout pass returns the tree unchanged and invokes no
object's layout callback (its invocation log is empty). -/
theorem layout_pass_idempotent (fuel fuel' : Nat) (t t₁ : ObjectTree) (log₁ : List Nat)
    (hno : noReqNode t.root)
    (h : layoutPass fuel t = .ok (t₁, log₁)) :
    layoutPass (fuel' + 1) t₁ = .ok (t₁, []) := by
  unfold layoutPass at h ⊢
  obtain ⟨p, hl, hp⟩ := bind_ok h
  obtain ⟨root', log'⟩ := p
  obtain ⟨h1, h2⟩ := pure_ok2 hp
  have hres := layoutNode_noReq hno hl
  subst h1; subst h2
  obtain ⟨objR, stR, chR⟩ := root'
  have hflag : stR.needsLayout = false := by simpa using hres.1
  simp [layoutNode, hflag, Bind.bind, Except.bind, pure, Except.pure]

/-- Witness for C2: the two-node tree `exC2` laid out twice; the second
pass returns the tree unchanged with an empty invocation log. -/
theorem layout_pass_idempotent_witness :
    noReqNode exC2.root ∧
    layoutPass 2 exC2 = .ok (exC2After, [0, 1]) ∧
    layoutPass 1 exC2After = .ok (exC2After, []) :=
  ⟨by simp [exC2, noReqNode, noReqList, leafCore, leafObj, Obj.core],
    rfl,
    layout_pass_idempotent 2 0 exC2 exC2After [0, 1]
      (by simp [exC2, noReqNode, noReqList, leafCore, leafObj, Obj.core]) rfl⟩

/-- Witness for C7: `exC2`'s root laid out against the fractional size
`szC7` (3/2 × 2), and a concrete `place_object` at x = 3/2. -/
theorem layout_rounds_witness :
    (ObjectState.new 0).needsLayout = true ∧
    layoutNode 2 exC2.root szC7 = .ok (exC7After, [0, 1]) ∧
    (exC7After.state.layoutArea.size = szC7.round ∧
      exC7After.state.needsCompose = true ∧ exC7After.state.wantsCompose = true) ∧
    (placeObject (ObjectState.new 3) ⟨⟨3, 2⟩, 0⟩).layoutArea.position =
      Point.round ⟨⟨3, 2⟩, 0⟩ :=
  ⟨rfl, rfl,
    layout_rounds_and_sets_compose_flags.1 1 exC2.root.object exC2.root.state
      exC2.root.children szC7 exC7After [0, 1] rfl rfl,
    layout_rounds_and_sets_compose_flags.2 (ObjectState.new 3) ⟨⟨3, 2⟩, 0⟩⟩

end SceneGraph
